import Mathlib

/-!
# FAT12 file extraction (`tools/fat/fat.c`)

A shallow embedding of the FAT12 reader: the sector reader, the root
directory loader, the directory lookup and the cluster-chain walk, followed
by the properties established about them.

Conventions of the embedding.

* A byte is a `Fin 256`; the disk image and every buffer are lists of bytes.
* C integers are natural numbers; a value stored in a `uint32_t` is reduced
  modulo `2 ^ 32` at the place the C code stores it.
* The target is little-endian with a 64-bit `long` (so every `uint32_t`
  offset is a valid, non-negative `fseek` offset) and the disk image is a
  regular file: `fseek` to any such offset succeeds, also past the end.
* Behaviour the C standard leaves undefined is made explicit: a division by
  zero makes `readRootDirectory` return `none`; an overflowing `int` product in
  the size passed to `malloc` makes `readFat` return `none`; a name comparison
  that leaves `g_RootDirectory` makes `findFile` return `Lookup.fault`; a FAT
  fetch outside `g_Fat` makes the cluster walk stop with `Outcome.fault`; a
  store past the end of the output buffer makes `main` end in
  `MainResult.outOfBounds`.
* The `do ... while` loop of `readFile` is run with a bound on the number of
  iterations; `Outcome.running` means the bound was reached with the loop
  still going.
-/

namespace Fat12

/-! ## Data model -/

/-- One byte (`uint8_t`). -/
abbrev Byte := Fin 256

/-- The disk image: the contents of the file behind `FILE* disk`. -/
abbrev Disk := List Byte

/-- The packed `BootSector` record (62 bytes on disk). -/
structure BootSector where
  BootJumpInstruction : List Byte := []
  OemIdentifier : List Byte := []
  BytesPerSector : Nat := 0
  SectorsPerCluster : Nat := 0
  ReservedSectors : Nat := 0
  FatCount : Nat := 0
  DirEntryCount : Nat := 0
  TotalSectors : Nat := 0
  MediaDescriptorType : Nat := 0
  SectorsPerFat : Nat := 0
  SectorsPerTrack : Nat := 0
  Heads : Nat := 0
  HiddenSectors : Nat := 0
  LargeSectorCount : Nat := 0
  DriveNumber : Nat := 0
  _Reserved : Nat := 0
  Signature : Nat := 0
  VolumeId : Nat := 0
  VolumeLabel : List Byte := []
  SystemId : List Byte := []
  deriving DecidableEq

/-- The geometry fields hold values of their C types (`uint16_t`, `uint8_t`). -/
def BootSector.WellTyped (bs : BootSector) : Prop :=
  bs.BytesPerSector < 2 ^ 16 ∧ bs.SectorsPerCluster < 2 ^ 8 ∧
  bs.ReservedSectors < 2 ^ 16 ∧ bs.FatCount < 2 ^ 8 ∧
  bs.DirEntryCount < 2 ^ 16 ∧ bs.SectorsPerFat < 2 ^ 16

instance (bs : BootSector) : Decidable bs.WellTyped := by
  unfold BootSector.WellTyped; infer_instance

/-- The packed `DirectoryEntry` record (32 bytes on disk). -/
structure DirectoryEntry where
  Name : List Byte := []
  Attributes : Nat := 0
  _Reserved : Nat := 0
  CreatedTimeTenths : Nat := 0
  CreatedTime : Nat := 0
  CreatedDate : Nat := 0
  AccessedDate : Nat := 0
  FirstClusterHigh : Nat := 0
  ModifiedTime : Nat := 0
  ModifiedDate : Nat := 0
  FirstClusterLow : Nat := 0
  Size : Nat := 0
  deriving DecidableEq

/-- The value of `sizeof(DirectoryEntry)`: 11 + 3 + 7 * 2 + 4 bytes, packed. -/
def sizeofDirectoryEntry : Nat := 32

/-- The global variables of the program. `g_Fat` and `g_RootDirectory` hold
the bytes that were read into the two heap buffers. -/
structure Globals where
  g_BootSector : BootSector := {}
  g_Fat : List Byte := []
  g_RootDirectory : List Byte := []
  g_RootDirectoryEnd : Nat := 0
  deriving DecidableEq

/-! ## Sector reader -/

/-- The call `fread(buf, size, nmemb, disk)` with the stream positioned at
byte `pos`: the bytes stored into `buf` and the number of complete items
read. With `size = 0` or `nmemb = 0` nothing is read and the result is 0. -/
def fread (disk : Disk) (pos size nmemb : Nat) : List Byte × Nat :=
  if size = 0 ∨ nmemb = 0 then ([], 0)
  else
    let data := (disk.drop pos).take (size * nmemb)
    (data, data.length / size)

/-- The function `readSectors(disk, lba, count, bufferOut)`: the returned flag
and the bytes stored into `bufferOut`. The seek offset is the `uint32_t`
product `lba * BytesPerSector`. -/
def readSectors (g : Globals) (disk : Disk) (lba count : Nat) : Bool × List Byte :=
  let offset := (lba * g.g_BootSector.BytesPerSector) % 2 ^ 32
  let seekOk := true
  let r := fread disk offset g.g_BootSector.BytesPerSector count
  (seekOk && (r.2 == count), r.1)

/-! ## Root directory loader -/

/-- The function `readRootDirectory(disk)`: the returned flag and the globals
after the call; `none` when `BytesPerSector` is 0 (division by zero). -/
def readRootDirectory (g : Globals) (disk : Disk) : Option (Bool × Globals) :=
  let bs := g.g_BootSector
  let lba := (bs.ReservedSectors + bs.SectorsPerFat * bs.FatCount) % 2 ^ 32
  let size := (sizeofDirectoryEntry * bs.DirEntryCount) % 2 ^ 32
  if bs.BytesPerSector = 0 then none
  else
    let sectors := size / bs.BytesPerSector
    let sectors := if size % bs.BytesPerSector > 0 then (sectors + 1) % 2 ^ 32 else sectors
    let r := readSectors g disk lba sectors
    some (r.1, { g with g_RootDirectoryEnd := (lba + sectors) % 2 ^ 32,
                        g_RootDirectory := r.2 })

/-! ## Directory lookup -/

/-- The call `memcmp(name, buf + off, 11) == 0`: the first 11 bytes of `name`
against the 11 bytes of the buffer from offset `off`; `none` when one of the
two objects holds fewer than 11 bytes there. -/
def memcmp11 (name buf : List Byte) (off : Nat) : Option Bool :=
  if 11 ≤ name.length ∧ off + 11 ≤ buf.length then
    some (name.take 11 == (buf.drop off).take 11)
  else none

/-- The result of `findFile`: a pointer to entry `i` of `g_RootDirectory`,
`NULL`, or a read outside the buffers. -/
inductive Lookup where
  | found (i : Nat)
  | notFound
  | fault
  deriving DecidableEq

/-- The `for` loop of `findFile` from index `i` with `n` indices left; entry
`i` starts at byte `sizeof(DirectoryEntry) * i` and `Name` is its first
field. -/
def findFileLoop (g : Globals) (name : List Byte) : Nat → Nat → Lookup
  | _, 0 => .notFound
  | i, n + 1 =>
    match memcmp11 name g.g_RootDirectory (sizeofDirectoryEntry * i) with
    | none => .fault
    | some true => .found i
    | some false => findFileLoop g name (i + 1) n

/-- The function `findFile(name)`. -/
def findFile (g : Globals) (name : List Byte) : Lookup :=
  findFileLoop g name 0 g.g_BootSector.DirEntryCount

/-! ## Cluster-chain reader -/

/-- The 16-bit load `*(uint16_t*)(g_Fat + fatIndex)`, little-endian; `none`
when one of the two bytes lies outside the buffer. -/
def fatWord (fat : List Byte) (fatIndex : Nat) : Option Nat :=
  match fat[fatIndex]?, fat[fatIndex + 1]? with
  | some lo, some hi => some (lo.val + 256 * hi.val)
  | _, _ => none

/-- Lines 123-127 of `readFile`: the value assigned to `currentCluster`. -/
def nextCluster (fat : List Byte) (currentCluster : Nat) : Option Nat :=
  let fatIndex := (currentCluster * 3 / 2) % 2 ^ 32
  if currentCluster % 2 = 0 then (fatWord fat fatIndex).map (fun w => w &&& 0x0FFF)
  else (fatWord fat fatIndex).map (fun w => w >>> 4)

/-- One call of `readSectors` made by `readFile`. -/
structure SectorRead where
  cluster : Nat
  lba : Nat
  dest : Nat
  data : List Byte
  ok : Bool
  deriving DecidableEq

/-- The local state of `readFile`: `ok`, `currentCluster`, the distance of
`outputBuffer` from its initial value, and the reads made so far. -/
structure WalkState where
  ok : Bool
  currentCluster : Nat
  outputBuffer : Nat
  reads : List SectorRead
  deriving DecidableEq

/-- Line 119 of `readFile`: `g_RootDirectoryEnd + (currentCluster - 2) *
SectorsPerCluster`, an `int` product added to a `uint32_t`. -/
def clusterLba (g : Globals) (currentCluster : Nat) : Nat :=
  (((g.g_RootDirectoryEnd : Int) +
      ((currentCluster : Int) - 2) * (g.g_BootSector.SectorsPerCluster : Int)) % 2 ^ 32).toNat

/-- Lines 119-121 of `readFile`: the sector read (skipped by `&&` when `ok` is
already false) and the advance of `outputBuffer`. -/
def readCluster (g : Globals) (disk : Disk) (s : WalkState) : WalkState :=
  let lba := clusterLba g s.currentCluster
  let step := g.g_BootSector.SectorsPerCluster * g.g_BootSector.BytesPerSector
  if s.ok then
    let r := readSectors g disk lba g.g_BootSector.SectorsPerCluster
    { s with ok := r.1, outputBuffer := s.outputBuffer + step,
             reads := s.reads ++ [⟨s.currentCluster, lba, s.outputBuffer, r.2, r.1⟩] }
  else
    { s with outputBuffer := s.outputBuffer + step }

/-- How a bounded run of the loop of `readFile` ends. -/
inductive Outcome where
  | returned (ok : Bool) (s : WalkState)
  | fault (s : WalkState)
  | running (s : WalkState)
  deriving DecidableEq

/-- The local state an outcome carries. -/
def Outcome.state : Outcome → WalkState
  | .returned _ s => s
  | .fault s => s
  | .running s => s

/-- The `do ... while (ok && currentCluster < 0x0FF8)` loop of `readFile`,
run for at most the given number of iterations. -/
def readFileLoop (g : Globals) (disk : Disk) : Nat → WalkState → Outcome
  | 0, s => .running s
  | fuel + 1, s =>
    let s1 := readCluster g disk s
    match nextCluster g.g_Fat s.currentCluster with
    | none => .fault s1
    | some c =>
      let s2 := { s1 with currentCluster := c }
      if s2.ok && decide (c < 0x0FF8) then readFileLoop g disk fuel s2
      else .returned s2.ok s2

/-- The state `readFile` starts its loop in. -/
def initialState (fileEntry : DirectoryEntry) : WalkState :=
  { ok := true, currentCluster := fileEntry.FirstClusterLow, outputBuffer := 0, reads := [] }

/-- The function `readFile(fileEntry, disk, outputBuffer)`. -/
def readFile (g : Globals) (fileEntry : DirectoryEntry) (disk : Disk) (fuel : Nat) : Outcome :=
  readFileLoop g disk fuel (initialState fileEntry)

/-! ## Derived notions used to state the properties -/

/-- The record of the `readSectors` call `readFile` makes for a cluster while
`outputBuffer` is `dest` bytes past its initial value. -/
def clusterRead (g : Globals) (disk : Disk) (dest currentCluster : Nat) : SectorRead :=
  ⟨currentCluster, clusterLba g currentCluster, dest,
    (readSectors g disk (clusterLba g currentCluster) g.g_BootSector.SectorsPerCluster).2,
    (readSectors g disk (clusterLba g currentCluster) g.g_BootSector.SectorsPerCluster).1⟩

/-- The data of a cluster: what the sector reader delivers for the
`SectorsPerCluster` sectors at the LBA of the cluster. -/
def clusterData (g : Globals) (disk : Disk) (currentCluster : Nat) : List Byte :=
  (clusterRead g disk 0 currentCluster).data

/-- The sector read of a cluster succeeds. -/
def clusterReadOk (g : Globals) (disk : Disk) (currentCluster : Nat) : Bool :=
  (clusterRead g disk 0 currentCluster).ok

/-- The reads of the clusters of a chain, in order, stored from `dest` on in
steps of `SectorsPerCluster * BytesPerSector` bytes. -/
def chainReads (g : Globals) (disk : Disk) : Nat → List Nat → List SectorRead
  | _, [] => []
  | dest, c :: cs =>
    clusterRead g disk dest c ::
      chainReads g disk
        (dest + g.g_BootSector.SectorsPerCluster * g.g_BootSector.BytesPerSector) cs

/-- The FAT links the clusters of a non-empty list, each to the next and the
last one to `m`. -/
def FatChain (fat : List Byte) : List Nat → Nat → Prop
  | [], _ => False
  | [c], m => nextCluster fat c = some m
  | c :: c' :: cs, m => nextCluster fat c = some c' ∧ FatChain fat (c' :: cs) m

/-- The loop of `readFile` follows the list and leaves after its last cluster
with flag `b`: every link is in the FAT, every read but the last succeeds,
every cluster after the first is below 0x0FF8, and after the last cluster
either the read has failed or the next value `m` is an end-of-chain marker. -/
def Walks (g : Globals) (disk : Disk) : List Nat → Nat → Bool → Prop
  | [], _, _ => False
  | [c], m, b =>
    nextCluster g.g_Fat c = some m ∧ clusterReadOk g disk c = b ∧ (b = false ∨ 0x0FF8 ≤ m)
  | c :: c' :: cs, m, b =>
    nextCluster g.g_Fat c = some c' ∧ clusterReadOk g disk c = true ∧ c' < 0x0FF8 ∧
      Walks g disk (c' :: cs) m b

/-- The number of bytes the reads stored into the output buffer. -/
def bytesWritten (reads : List SectorRead) : Nat :=
  (reads.map (fun r => r.data.length)).sum

/-- The bytes the reads stored into the output buffer, in address order (each
successful read stores exactly where the previous one ended). -/
def outputContents (reads : List SectorRead) : List Byte :=
  (reads.map (fun r => r.data)).flatten

/-! ## Concrete data used by the examples -/

/-- The boot sector of the example: 512-byte sectors, one reserved sector, two
FATs of nine sectors, 224 root directory entries. -/
def exampleBootSector : BootSector :=
  { BytesPerSector := 512, SectorsPerCluster := 1, ReservedSectors := 1, FatCount := 2,
    SectorsPerFat := 9, DirEntryCount := 224 }

/-- A small FAT of ten entries: 0xFF0, 0xFFF, then the chains 2 -> 3 -> 4 ->
0xFFF and 5 -> 9 -> 0xFFF (entries 6, 7, 8 are free). -/
def exampleFat : List Byte :=
  [0xF0, 0xFF, 0xFF, 0x03, 0x40, 0x00, 0xFF, 0x9F, 0x00, 0x00, 0x00, 0x00, 0x00, 0xF0, 0xFF]

/-! ## Specification-side definitions -/

/-- The 16-bit little-endian word at a byte offset of the FAT, in the words of
the specification. -/
def specWordAt (fat : List Byte) (off : Nat) : Nat :=
  (fat.getD off 0).val + 256 * (fat.getD (off + 1) 0).val

/-- The FAT12 entry `i` in the words of the specification: the word at byte
offset `floor(i * 3 / 2)`; its low 12 bits for an even `i`, its high 12 bits
for an odd `i`. -/
def specFatEntry (fat : List Byte) (i : Nat) : Nat :=
  if i % 2 = 0 then specWordAt fat (i * 3 / 2) % 2 ^ 12
  else specWordAt fat (i * 3 / 2) / 2 ^ 4

/-- The byte holding the low eight bits of a number. -/
def toByte (n : Nat) : Byte := ⟨n % 256, Nat.mod_lt _ (by decide)⟩

/-- The `Name` field of entry `i` equals the query byte for byte: each of the
11 bytes at offset `32 * i` of the loaded directory exists and is the
corresponding byte of the query. -/
def NameFieldEquals (g : Globals) (name : List Byte) (i : Nat) : Prop :=
  ∀ k, k < 11 → g.g_RootDirectory[32 * i + k]? = name[k]?

/-- The FAT12 packing rule of the specification, two 12-bit entries in three
bytes: the low byte of the first entry; its high nibble with the low nibble of
the second entry above it; the high byte of the second entry. An unpaired last
entry takes two bytes. The program itself only decodes. -/
def specPack12 : List Nat → List Byte
  | [] => []
  | [a] => [toByte a, toByte (a / 256)]
  | a :: b :: rest =>
    toByte a :: toByte (a / 256 + 16 * (b % 16)) :: toByte (b / 16) :: specPack12 rest

/-- The query name `B       TXT`. -/
def exampleName : List Byte :=
  [0x42, 0x20, 0x20, 0x20, 0x20, 0x20, 0x20, 0x20, 0x54, 0x58, 0x54]

/-- A root directory of three 32-byte entries named `A       TXT`,
`B       TXT` and again `B       TXT`, with first clusters 2, 5 and 9. -/
def exampleRootDirectory : List Byte :=
  [0x41, 0x20, 0x20, 0x20, 0x20, 0x20, 0x20, 0x20, 0x54, 0x58, 0x54] ++ List.replicate 15 0 ++
    [2, 0, 6, 0, 0, 0] ++
  exampleName ++ List.replicate 15 0 ++ [5, 0, 8, 0, 0, 0] ++
  exampleName ++ List.replicate 15 0 ++ [9, 0, 4, 0, 0, 0]

/-- A disk image of 36 bytes; byte `i` has value `i`. -/
def exampleDisk : Disk := (List.range 36).map toByte

/-- Globals for the cluster walk over the example FAT: two-byte sectors, two
sectors per cluster, data region from LBA 2, so that cluster `c` occupies the
bytes `4 * c - 4` to `4 * c - 1` of the image. -/
def exampleGlobals : Globals :=
  { g_BootSector := { BytesPerSector := 2, SectorsPerCluster := 2 },
    g_Fat := exampleFat, g_RootDirectoryEnd := 2 }

/-- A FAT buffer of 6134 bytes 0xFF: each of its 4089 entries is 0xFFF. -/
def endMarkerFat : List Byte := List.replicate 6134 0xFF

/-- A disk image of 16352 bytes: zeros up to the four bytes 1, 2, 3, 4 of the
sectors at LBA 8174 and 8175 (two-byte sectors). -/
def endMarkerDisk : Disk := List.replicate 16348 0 ++ [1, 2, 3, 4]

/-- Globals with the geometry of `exampleGlobals` and the FAT `endMarkerFat`:
cluster 0x0FF8 is at LBA 2 + 4086 * 2 = 8174. -/
def endMarkerGlobals : Globals :=
  { g_BootSector := { BytesPerSector := 2, SectorsPerCluster := 2 },
    g_Fat := endMarkerFat, g_RootDirectoryEnd := 2 }

/-- A disk image of one 512-byte sector, every byte 0xAA. -/
def oneSectorDisk : Disk := List.replicate 512 0xAA

/-- Globals with 512-byte sectors. -/
def sector512Globals : Globals := { g_BootSector := { BytesPerSector := 512 } }

/-! ## Boot sector reader, FAT loader and `main` -/

/-- The sizes in bytes of the fields of the packed `BootSector` record, in the
order of their declaration. -/
def bootSectorFieldSizes : List Nat :=
  [3, 8, 2, 1, 2, 1, 2, 2, 1, 2, 2, 2, 4, 4, 1, 1, 1, 4, 11, 8]

/-- The value of `sizeof(BootSector)`: the record is packed, so the sum of the
field sizes. -/
def sizeofBootSector : Nat := bootSectorFieldSizes.sum

/-- The sizes in bytes of the fields of the packed `DirectoryEntry` record. -/
def directoryEntryFieldSizes : List Nat := [11, 1, 1, 1, 2, 2, 2, 2, 2, 2, 2, 4]

/-- The offset of field `k` of a packed record with the given field sizes:
the fields follow one another without padding. -/
def fieldOffset (sizes : List Nat) (k : Nat) : Nat := (sizes.take k).sum

/-- The little-endian value of the `size` bytes from offset `off`; a byte the
list does not hold counts as 0. -/
def leValue (b : List Byte) (off : Nat) : Nat → Nat
  | 0 => 0
  | size + 1 => (b.getD off 0).val + 256 * leValue b (off + 1) size

/-- The integer field `k` of a packed record stored in `b`. -/
def intField (sizes : List Nat) (b : List Byte) (k : Nat) : Nat :=
  leValue b (fieldOffset sizes k) (sizes.getD k 0)

/-- The byte-array field `k` of a packed record stored in `b`. -/
def arrayField (sizes : List Nat) (b : List Byte) (k : Nat) : List Byte :=
  (b.drop (fieldOffset sizes k)).take (sizes.getD k 0)

/-- The `BootSector` value whose object representation is `b` (little-endian
target, packed layout). -/
def decodeBootSector (b : List Byte) : BootSector :=
  { BootJumpInstruction := arrayField bootSectorFieldSizes b 0
    OemIdentifier := arrayField bootSectorFieldSizes b 1
    BytesPerSector := intField bootSectorFieldSizes b 2
    SectorsPerCluster := intField bootSectorFieldSizes b 3
    ReservedSectors := intField bootSectorFieldSizes b 4
    FatCount := intField bootSectorFieldSizes b 5
    DirEntryCount := intField bootSectorFieldSizes b 6
    TotalSectors := intField bootSectorFieldSizes b 7
    MediaDescriptorType := intField bootSectorFieldSizes b 8
    SectorsPerFat := intField bootSectorFieldSizes b 9
    SectorsPerTrack := intField bootSectorFieldSizes b 10
    Heads := intField bootSectorFieldSizes b 11
    HiddenSectors := intField bootSectorFieldSizes b 12
    LargeSectorCount := intField bootSectorFieldSizes b 13
    DriveNumber := intField bootSectorFieldSizes b 14
    _Reserved := intField bootSectorFieldSizes b 15
    Signature := intField bootSectorFieldSizes b 16
    VolumeId := intField bootSectorFieldSizes b 17
    VolumeLabel := arrayField bootSectorFieldSizes b 18
    SystemId := arrayField bootSectorFieldSizes b 19 }

/-- The `DirectoryEntry` value whose object representation is `b`. -/
def decodeDirectoryEntry (b : List Byte) : DirectoryEntry :=
  { Name := arrayField directoryEntryFieldSizes b 0
    Attributes := intField directoryEntryFieldSizes b 1
    _Reserved := intField directoryEntryFieldSizes b 2
    CreatedTimeTenths := intField directoryEntryFieldSizes b 3
    CreatedTime := intField directoryEntryFieldSizes b 4
    CreatedDate := intField directoryEntryFieldSizes b 5
    AccessedDate := intField directoryEntryFieldSizes b 6
    FirstClusterHigh := intField directoryEntryFieldSizes b 7
    ModifiedTime := intField directoryEntryFieldSizes b 8
    ModifiedDate := intField directoryEntryFieldSizes b 9
    FirstClusterLow := intField directoryEntryFieldSizes b 10
    Size := intField directoryEntryFieldSizes b 11 }

/-- The entry `g_RootDirectory[i]` that the pointer returned by `findFile`
designates. -/
def directoryEntryAt (g : Globals) (i : Nat) : DirectoryEntry :=
  decodeDirectoryEntry (g.g_RootDirectory.drop (sizeofDirectoryEntry * i))

/-- The function `readBootSector(disk)`, called with the stream at offset 0:
the returned flag and the globals after the call. The bytes `fread` delivers
overwrite the front of `g_BootSector`; on a short read the rest of the record
keeps the zeros of its static initialisation. -/
def readBootSector (g : Globals) (disk : Disk) : Bool × Globals :=
  let r := fread disk 0 sizeofBootSector 1
  (decide (r.2 > 0), { g with g_BootSector := decodeBootSector r.1 })

/-- The function `readFat(disk)`: the returned flag and the globals after the
call; `none` when the `int` product `SectorsPerFat * BytesPerSector` passed to
`malloc` overflows. -/
def readFat (g : Globals) (disk : Disk) : Option (Bool × Globals) :=
  let bs := g.g_BootSector
  if 2 ^ 31 ≤ bs.SectorsPerFat * bs.BytesPerSector then none
  else
    let r := readSectors g disk bs.ReservedSectors bs.SectorsPerFat
    some (r.1, { g with g_Fat := r.2 })

/-- The argument of the `malloc` call in `readRootDirectory`, the `uint32_t`
product `sectors * BytesPerSector`; `none` when `BytesPerSector` is 0. -/
def rootDirectoryAlloc (g : Globals) : Option Nat :=
  let bs := g.g_BootSector
  let size := (sizeofDirectoryEntry * bs.DirEntryCount) % 2 ^ 32
  if bs.BytesPerSector = 0 then none
  else
    let sectors := size / bs.BytesPerSector
    let sectors := if size % bs.BytesPerSector > 0 then (sectors + 1) % 2 ^ 32 else sectors
    some ((sectors * bs.BytesPerSector) % 2 ^ 32)

/-- The argument of the `malloc` call in `main`, the `uint32_t` sum
`fileEntry->Size + BytesPerSector`: the capacity of the output buffer. -/
def outputCapacity (g : Globals) (fileEntry : DirectoryEntry) : Nat :=
  (fileEntry.Size + g.g_BootSector.BytesPerSector) % 2 ^ 32

/-- How a run of `main` ends: with a return value, in one of the undefined
behaviours of the embedding, or with the iteration bound of `readFile`
reached. -/
inductive MainResult where
  | exit (code : Int)
  | intOverflow
  | divisionByZero
  | outOfBounds
  | running
  deriving DecidableEq

/-- The function `main` from the point where the disk image is open, `name`
being `argv[2]`. A store of `readFile` past the end of the output buffer is an
out-of-bounds access. -/
def main (disk : Disk) (name : List Byte) (fuel : Nat) : MainResult :=
  let r1 := readBootSector {} disk
  if r1.1 = false then .exit (-2)
  else
    match readFat r1.2 disk with
    | none => .intOverflow
    | some (false, _) => .exit (-3)
    | some (true, g2) =>
      match readRootDirectory g2 disk with
      | none => .divisionByZero
      | some (false, _) => .exit (-4)
      | some (true, g3) =>
        match findFile g3 name with
        | .fault => .outOfBounds
        | .notFound => .exit (-5)
        | .found i =>
          let fileEntry := directoryEntryAt g3 i
          let o := readFile g3 fileEntry disk fuel
          if o.state.reads.any
              (fun r => decide (outputCapacity g3 fileEntry < r.dest + r.data.length)) then
            .outOfBounds
          else
            match o with
            | .returned true _ => .exit 0
            | .returned false _ => .exit (-5)
            | .fault _ => .outOfBounds
            | .running _ => .running

/-! ## Specification-side arithmetic -/

/-- The quotient rounded up, `ceil(a / b)`. -/
def ceilDiv (a b : Nat) : Nat := (a + b - 1) / b

/-- The number `a` rounded up to a whole multiple of `b`. -/
def roundUp (a b : Nat) : Nat := ceilDiv a b * b

/-! ## A complete small disk image -/

/-- The 64 bytes of the two reserved sectors of the small image: the packed
boot sector (32-byte sectors, the given number of sectors per cluster, 2
reserved sectors, 2 FATs of 1 sector, 2 root directory entries) and 2 bytes of
padding. -/
def smallBootSector (sectorsPerCluster : Byte) : List Byte :=
  [0xEB, 0x3C, 0x90] ++ [0x4D, 0x53, 0x57, 0x49, 0x4E, 0x34, 0x2E, 0x31] ++
  [0x20, 0x00] ++ [sectorsPerCluster] ++ [0x02, 0x00] ++ [0x02] ++ [0x02, 0x00] ++
  [0x08, 0x00] ++ [0xF0] ++ [0x01, 0x00] ++ [0x01, 0x00] ++ [0x01, 0x00] ++
  [0, 0, 0, 0] ++ [0, 0, 0, 0] ++ [0x00] ++ [0x00] ++ [0x29] ++ [1, 2, 3, 4] ++
  [0x4E, 0x4F, 0x20, 0x4E, 0x41, 0x4D, 0x45, 0x20, 0x20, 0x20, 0x20] ++
  [0x46, 0x41, 0x54, 0x31, 0x32, 0x20, 0x20, 0x20] ++ [0, 0]

/-- One 32-byte FAT sector: entries 0xFF0, 0xFFF, then the chain 2 -> 3 ->
0xFFF. -/
def smallFat : List Byte := [0xF0, 0xFF, 0xFF, 0x03, 0xF0, 0xFF] ++ List.replicate 26 0

/-- The two root directory sectors: the file `A       TXT` (first cluster 2,
40 bytes) and a free entry. -/
def smallRootDirectory : List Byte :=
  [0x41, 0x20, 0x20, 0x20, 0x20, 0x20, 0x20, 0x20, 0x54, 0x58, 0x54] ++ List.replicate 15 0 ++
    [2, 0] ++ [40, 0, 0, 0] ++ List.replicate 32 0

/-- The query name `A       TXT`. -/
def smallName : List Byte :=
  [0x41, 0x20, 0x20, 0x20, 0x20, 0x20, 0x20, 0x20, 0x54, 0x58, 0x54]

/-- A disk image of 256 bytes in FAT12 layout: boot sector, two FAT copies
(the second one blank), the root directory, and the clusters 2 and 3 filled
with the bytes 0x61 and 0x62. -/
def smallImage (sectorsPerCluster : Byte) : Disk :=
  smallBootSector sectorsPerCluster ++ smallFat ++ List.replicate 32 0 ++ smallRootDirectory ++
    List.replicate 32 0x61 ++ List.replicate 32 0x62

/-- A FAT in which cluster 2 is linked to itself. -/
def cycleFat : List Byte := [0xF0, 0xFF, 0xFF, 0x02, 0x00, 0x00]

/-- The globals `exampleGlobals` with the FAT `cycleFat`. -/
def cycleGlobals : Globals :=
  { g_BootSector := { BytesPerSector := 2, SectorsPerCluster := 2 },
    g_Fat := cycleFat, g_RootDirectoryEnd := 2 }

/-- Globals with the example FAT and `SectorsPerCluster = 0`. -/
def zeroClusterGlobals : Globals :=
  { g_BootSector := { BytesPerSector := 2, SectorsPerCluster := 0 },
    g_Fat := exampleFat, g_RootDirectoryEnd := 2 }

/-- A disk image of 62 bytes whose boot sector has `BytesPerSector = 0` and
`SectorsPerFat = 1`. -/
def zeroSectorImage : Disk := List.replicate 22 0 ++ [1] ++ List.replicate 39 0

/-- Globals with the example FAT, two-byte sectors and one sector per
cluster. -/
def singleSectorGlobals : Globals :=
  { g_BootSector := { BytesPerSector := 2, SectorsPerCluster := 1 },
    g_Fat := exampleFat, g_RootDirectoryEnd := 2 }

/-! ## A small disk image with two sectors per cluster -/

/-- One 32-byte FAT sector: entries 0xFF0, 0xFFF, then cluster 2 marked as
the end of its chain. -/
def clusterPairFat : List Byte := [0xF0, 0xFF, 0xFF, 0xFF, 0x0F, 0x00] ++ List.replicate 26 0

/-- The two root directory sectors: the file `A       TXT` (first cluster 2,
1 byte) and a free entry. -/
def clusterPairRootDirectory : List Byte :=
  [0x41, 0x20, 0x20, 0x20, 0x20, 0x20, 0x20, 0x20, 0x54, 0x58, 0x54] ++ List.replicate 15 0 ++
    [2, 0] ++ [1, 0, 0, 0] ++ List.replicate 32 0

/-- A disk image of 256 bytes in FAT12 layout with 32-byte sectors and 2
sectors per cluster: boot sector, two FAT copies, the root directory, and
cluster 2 (the sectors at LBA 6 and 7) filled with the byte 0x61. -/
def clusterPairImage : Disk :=
  smallBootSector 2 ++ clusterPairFat ++ clusterPairFat ++ clusterPairRootDirectory ++
    List.replicate 64 0x61

/-- The globals after `readBootSector`, `readFat` and `readRootDirectory` on
`clusterPairImage`. -/
def clusterPairGlobals : Globals :=
  { g_BootSector := decodeBootSector (clusterPairImage.take 62),
    g_Fat := clusterPairFat, g_RootDirectory := clusterPairRootDirectory,
    g_RootDirectoryEnd := 6 }

/-! ## Sector reader: auxiliary facts -/

theorem fread_items_eq_iff (disk : Disk) (pos size nmemb : Nat) :
    (fread disk pos size nmemb).2 = nmemb ↔
      nmemb = 0 ∨ (0 < size ∧ pos + size * nmemb ≤ disk.length) := by
  unfold fread
  by_cases hz : size = 0 ∨ nmemb = 0
  · rw [if_pos hz]
    rcases hz with h | h
    · subst h
      constructor
      · intro h; left; exact h.symm
      · rintro (h | ⟨h, _⟩)
        · exact h.symm
        · omega
    · subst h; simp
  · rw [if_neg hz]
    have hs : 0 < size := by omega
    have hn : nmemb ≠ 0 := by omega
    simp only [List.length_take, List.length_drop]
    constructor
    · intro h
      right
      refine ⟨hs, ?_⟩
      have h1 : size * nmemb ≤ min (size * nmemb) (disk.length - pos) := by
        have := Nat.div_mul_le_self (min (size * nmemb) (disk.length - pos)) size
        rw [h, Nat.mul_comm] at this
        exact this
      have h2 : 0 < size * nmemb := Nat.mul_pos hs (Nat.pos_of_ne_zero hn)
      omega
    · rintro (h | ⟨_, h⟩)
      · exact absurd h hn
      · have : min (size * nmemb) (disk.length - pos) = size * nmemb := by omega
        rw [this]
        exact Nat.mul_div_cancel_left nmemb hs

theorem fread_data_of_items_eq (disk : Disk) (pos size nmemb : Nat)
    (h : (fread disk pos size nmemb).2 = nmemb) :
    (fread disk pos size nmemb).1 = (disk.drop pos).take (size * nmemb) ∧
      (fread disk pos size nmemb).1.length = size * nmemb := by
  have hiff := (fread_items_eq_iff disk pos size nmemb).1 h
  unfold fread
  by_cases hz : size = 0 ∨ nmemb = 0
  · rw [if_pos hz]
    have : size * nmemb = 0 := by
      rcases hz with h | h <;> simp [h]
    simp [this]
  · rw [if_neg hz]
    refine ⟨rfl, ?_⟩
    simp only [List.length_take, List.length_drop]
    rcases hiff with h0 | ⟨_, hle⟩
    · omega
    · omega

theorem readSectors_ok_iff (g : Globals) (disk : Disk) (lba count : Nat) :
    (readSectors g disk lba count).1 = true ↔
      count = 0 ∨ (0 < g.g_BootSector.BytesPerSector ∧
        (lba * g.g_BootSector.BytesPerSector) % 2 ^ 32 + g.g_BootSector.BytesPerSector * count
          ≤ disk.length) := by
  unfold readSectors
  simp only [Bool.true_and, beq_iff_eq]
  exact fread_items_eq_iff _ _ _ _

theorem readSectors_data_of_ok (g : Globals) (disk : Disk) (lba count : Nat)
    (h : (readSectors g disk lba count).1 = true) :
    (readSectors g disk lba count).2 =
        (disk.drop ((lba * g.g_BootSector.BytesPerSector) % 2 ^ 32)).take
          (g.g_BootSector.BytesPerSector * count) ∧
      (readSectors g disk lba count).2.length = g.g_BootSector.BytesPerSector * count := by
  unfold readSectors at h ⊢
  simp only [Bool.true_and, beq_iff_eq] at h
  exact fread_data_of_items_eq _ _ _ _ h

/-! ## Root directory loader: `g_RootDirectoryEnd` -/

/-- The round-up step of `readRootDirectory` computes the mathematical ceiling
of the quotient. -/
theorem natCeil_div_eq (a b : Nat) (hb : 0 < b) :
    ⌈((a : ℚ) / (b : ℚ))⌉₊ = if a % b > 0 then a / b + 1 else a / b := by
  have hbq : (0 : ℚ) < (b : ℚ) := by exact_mod_cast hb
  have hdm := Nat.div_add_mod a b
  have hml := Nat.mod_lt a hb
  apply le_antisymm
  · rw [Nat.ceil_le, div_le_iff₀ hbq]
    split_ifs with h
    · have : a ≤ (a / b + 1) * b := by nlinarith
      exact_mod_cast this
    · have : a ≤ (a / b) * b := by
        have : a % b = 0 := by omega
        nlinarith
      exact_mod_cast this
  · split_ifs with h
    · rw [Nat.add_one_le_iff, Nat.lt_ceil, lt_div_iff₀ hbq]
      have : a / b * b < a := by nlinarith
      exact_mod_cast this
    · have h0 : a % b = 0 := by omega
      have hx : (a : ℚ) / (b : ℚ) = ((a / b : ℕ) : ℚ) := by
        rw [div_eq_iff (ne_of_gt hbq)]
        have : a = a / b * b := by nlinarith
        exact_mod_cast this
      rw [hx, Nat.ceil_natCast]

/-- C1: for a boot sector whose fields hold values of their C types and whose
`BytesPerSector` is positive, `readRootDirectory` returns and records
`g_RootDirectoryEnd = ReservedSectors + SectorsPerFat * FatCount +
ceil(32 * DirEntryCount / BytesPerSector)`, the exact value: none of the
32-bit stores wraps around. -/
theorem readRootDirectory_rootDirectoryEnd (g : Globals) (disk : Disk)
    (ht : g.g_BootSector.WellTyped) (hb : 0 < g.g_BootSector.BytesPerSector) :
    ∃ ok g', readRootDirectory g disk = some (ok, g') ∧
      g'.g_RootDirectoryEnd =
        g.g_BootSector.ReservedSectors + g.g_BootSector.SectorsPerFat * g.g_BootSector.FatCount +
          ⌈(((32 * g.g_BootSector.DirEntryCount : ℕ) : ℚ) /
              (g.g_BootSector.BytesPerSector : ℚ))⌉₊ := by
  obtain ⟨h1, _, h3, h4, h5, h6⟩ := ht
  rw [natCeil_div_eq _ _ hb]
  unfold readRootDirectory
  simp only [sizeofDirectoryEntry]
  rw [if_neg (by omega)]
  refine ⟨_, _, rfl, ?_⟩
  simp only []
  have hsz : 32 * g.g_BootSector.DirEntryCount < 2 ^ 21 := by omega
  have hlba : g.g_BootSector.ReservedSectors +
      g.g_BootSector.SectorsPerFat * g.g_BootSector.FatCount < 2 ^ 25 := by
    have : g.g_BootSector.SectorsPerFat * g.g_BootSector.FatCount ≤ 2 ^ 16 * 2 ^ 8 :=
      Nat.mul_le_mul (by omega) (by omega)
    omega
  have hdiv : 32 * g.g_BootSector.DirEntryCount / g.g_BootSector.BytesPerSector < 2 ^ 21 :=
    lt_of_le_of_lt (Nat.div_le_self _ _) hsz
  rw [Nat.mod_eq_of_lt (show 32 * g.g_BootSector.DirEntryCount < 2 ^ 32 by omega),
    Nat.mod_eq_of_lt (show g.g_BootSector.ReservedSectors +
      g.g_BootSector.SectorsPerFat * g.g_BootSector.FatCount < 2 ^ 32 by omega)]
  have e1 : (32 * g.g_BootSector.DirEntryCount / g.g_BootSector.BytesPerSector + 1) % 2 ^ 32 =
      32 * g.g_BootSector.DirEntryCount / g.g_BootSector.BytesPerSector + 1 :=
    Nat.mod_eq_of_lt (by omega)
  split_ifs with h
  · rw [e1]
    exact Nat.mod_eq_of_lt (by omega)
  · exact Nat.mod_eq_of_lt (by omega)

/-- The example of C1: the standard floppy geometry gives
`g_RootDirectoryEnd = 1 + 18 + 14 = 33`. -/
theorem readRootDirectory_rootDirectoryEnd_witness :
    ∃ ok g', readRootDirectory { g_BootSector := exampleBootSector } [] = some (ok, g') ∧
      g'.g_RootDirectoryEnd = 33 := by
  obtain ⟨ok, g', h, he⟩ := readRootDirectory_rootDirectoryEnd
    { g_BootSector := exampleBootSector } [] (by decide) (by decide)
  refine ⟨ok, g', h, ?_⟩
  rw [he]
  have hx : (((32 * exampleBootSector.DirEntryCount : ℕ) : ℚ) /
      (exampleBootSector.BytesPerSector : ℚ)) = ((14 : ℕ) : ℚ) := by
    simp only [exampleBootSector]; norm_num
  show exampleBootSector.ReservedSectors + exampleBootSector.SectorsPerFat *
    exampleBootSector.FatCount + ⌈(((32 * exampleBootSector.DirEntryCount : ℕ) : ℚ) /
      (exampleBootSector.BytesPerSector : ℚ))⌉₊ = 33
  rw [hx, Nat.ceil_natCast]
  rfl

/-! ## FAT12 entry decoding -/

theorem fatWord_eq_specWordAt (fat : List Byte) (off : Nat) (h : off + 1 < fat.length) :
    fatWord fat off = some (specWordAt fat off) := by
  have h0 : off < fat.length := by omega
  unfold fatWord specWordAt
  simp [List.getD, List.getElem?_eq_getElem h0, List.getElem?_eq_getElem h]

theorem specWordAt_lt (fat : List Byte) (off : Nat) : specWordAt fat off < 2 ^ 16 := by
  unfold specWordAt
  have h1 := (fat.getD off 0).isLt
  have h2 := (fat.getD (off + 1) 0).isLt
  omega

theorem nextCluster_eq_specFatEntry (fat : List Byte) (i : Nat) (hi : i < 2 ^ 16)
    (hb : i * 3 / 2 + 1 < fat.length) :
    nextCluster fat i = some (specFatEntry fat i) := by
  have hidx : (i * 3 / 2) % 2 ^ 32 = i * 3 / 2 := Nat.mod_eq_of_lt (by omega)
  unfold nextCluster specFatEntry
  simp only [hidx, fatWord_eq_specWordAt fat _ hb, Option.map_some']
  split_ifs with hpar
  · rw [show (0x0FFF : Nat) = 2 ^ 12 - 1 by norm_num, Nat.and_pow_two_sub_one_eq_mod]
  · rw [Nat.shiftRight_eq_div_pow]

theorem specFatEntry_lt (fat : List Byte) (i : Nat) : specFatEntry fat i < 2 ^ 12 := by
  unfold specFatEntry
  have := specWordAt_lt fat (i * 3 / 2)
  split_ifs
  · exact Nat.mod_lt _ (by norm_num)
  · omega

theorem readFileLoop_one_currentCluster (g : Globals) (disk : Disk) (s : WalkState) (c : Nat)
    (h : nextCluster g.g_Fat s.currentCluster = some c) :
    (readFileLoop g disk 1 s).state.currentCluster = c := by
  simp only [readFileLoop, h]
  split_ifs <;> rfl

/-- C2: in every iteration of the loop of `readFile`, with cluster index `i`
(a `uint16_t`) and the two fetched bytes inside the FAT buffer, the value
stored in `currentCluster` is taken from the 16-bit little-endian word at byte
offset `floor(i * 3 / 2)` of the FAT: the word modulo `2 ^ 12` (its low 12
bits) for an even `i`, the word divided by `2 ^ 4` (its high 12 bits) for an
odd `i`. -/
theorem readFile_next_cluster_decode (g : Globals) (disk : Disk) (s : WalkState)
    (hi : s.currentCluster < 2 ^ 16)
    (hb : s.currentCluster * 3 / 2 + 1 < g.g_Fat.length) :
    nextCluster g.g_Fat s.currentCluster = some (specFatEntry g.g_Fat s.currentCluster) ∧
      (readFileLoop g disk 1 s).state.currentCluster =
        specFatEntry g.g_Fat s.currentCluster := by
  have h := nextCluster_eq_specFatEntry g.g_Fat s.currentCluster hi hb
  exact ⟨h, readFileLoop_one_currentCluster g disk s _ h⟩

/-- Entry 3 (odd) of the example FAT decodes to 4, the high 12 bits of the
word 0x0040 at byte offset 4. -/
theorem readFile_next_cluster_decode_witness :
    nextCluster exampleFat 3 = some 4 ∧
      (readFileLoop { g_Fat := exampleFat } [] 1
        { ok := true, currentCluster := 3, outputBuffer := 0, reads := [] }).state.currentCluster
        = 4 :=
  readFile_next_cluster_decode { g_Fat := exampleFat } []
    { ok := true, currentCluster := 3, outputBuffer := 0, reads := [] }
    (by decide) (by decide)

/-! ## FAT12 round trip -/

theorem fatWord_cons3 (x y z : Byte) (rest : List Byte) (k : Nat) :
    fatWord (x :: y :: z :: rest) (k + 3) = fatWord rest k := by
  simp [fatWord]

theorem nextCluster_cons3 (x y z : Byte) (rest : List Byte) (i : Nat) (hi : i + 2 < 2 ^ 16) :
    nextCluster (x :: y :: z :: rest) (i + 2) = nextCluster rest i := by
  have e1 : ((i + 2) * 3 / 2) % 2 ^ 32 = (i * 3 / 2) % 2 ^ 32 + 3 := by
    rw [Nat.mod_eq_of_lt (show (i + 2) * 3 / 2 < 2 ^ 32 by omega),
      Nat.mod_eq_of_lt (show i * 3 / 2 < 2 ^ 32 by omega)]
    omega
  have e2 : (i + 2) % 2 = i % 2 := by omega
  unfold nextCluster
  simp only [e1, e2, fatWord_cons3]

theorem nextCluster_pack_zero (a : Nat) (ha : a < 0x1000) (y : Byte) (rest : List Byte)
    (hy : y.val % 16 = a / 256) :
    nextCluster (toByte a :: y :: rest) 0 = some a := by
  have hyl := y.isLt
  simp only [nextCluster, fatWord, toByte, Option.map_some']
  simp only [show (0 * 3 / 2) % 2 ^ 32 = 0 by norm_num, List.getElem?_cons_zero,
    List.getElem?_cons_succ, if_pos, Option.map_some', Nat.zero_mod]
  rw [show (0x0FFF : Nat) = 2 ^ 12 - 1 by norm_num, Nat.and_pow_two_sub_one_eq_mod]
  congr 1
  omega

theorem nextCluster_pack_one (a b : Nat) (ha : a < 0x1000) (hb : b < 0x1000) (x : Byte)
    (rest : List Byte) :
    nextCluster (x :: toByte (a / 256 + 16 * (b % 16)) :: toByte (b / 16) :: rest) 1 = some b := by
  simp only [nextCluster, fatWord, toByte]
  simp only [show (1 * 3 / 2) % 2 ^ 32 = 1 by norm_num, List.getElem?_cons_zero,
    List.getElem?_cons_succ, Option.map_some']
  rw [if_neg (by norm_num)]
  simp only [Option.map_some', Nat.shiftRight_eq_div_pow]
  congr 1
  omega

theorem nextCluster_pack12 (vals : List Nat) :
    (∀ v ∈ vals, v < 0x1000) → ∀ i (hi : i < vals.length), i < 2 ^ 16 →
      nextCluster (specPack12 vals) i = some (vals.get ⟨i, hi⟩) := by
  induction vals using specPack12.induct with
  | case1 => intro _ i hi; simp at hi
  | case2 a =>
    intro hv i hi _
    have ha : a < 0x1000 := hv a (by simp)
    have hi0 : i = 0 := by simpa using hi
    subst hi0
    simp only [specPack12, List.get_eq_getElem, List.getElem_cons_zero]
    apply nextCluster_pack_zero a ha
    simp only [toByte]
    omega
  | case3 a b rest ih =>
    intro hv i hi h16
    have ha : a < 0x1000 := hv a (by simp)
    have hb : b < 0x1000 := hv b (by simp)
    simp only [specPack12]
    match i, hi, h16 with
    | 0, _, _ =>
      simp only [List.get_eq_getElem, List.getElem_cons_zero]
      apply nextCluster_pack_zero a ha
      simp only [toByte]
      omega
    | 1, _, _ =>
      simp only [List.get_eq_getElem, List.getElem_cons_succ, List.getElem_cons_zero]
      exact nextCluster_pack_one a b ha hb _ _
    | j + 2, hj, hj16 =>
      rw [nextCluster_cons3 _ _ _ _ j hj16]
      have hj' : j < rest.length := by simpa using hj
      rw [ih (fun v hv' => hv v (by simp [hv'])) j hj' (by omega)]
      simp

/-- C3: FAT12 round trip. For every sequence of 12-bit values packed two
entries per three bytes, the decode step of `readFile` at an index `i` in
range (a `uint16_t`, even or odd) returns exactly the `i`-th value. -/
theorem fat12_decode_pack12 (vals : List Nat) (hv : ∀ v ∈ vals, v < 0x1000)
    (i : Nat) (hi : i < vals.length) (h16 : i < 2 ^ 16) :
    nextCluster (specPack12 vals) i = some (vals.get ⟨i, hi⟩) :=
  nextCluster_pack12 vals hv i hi h16

/-- The links 0xFF0, 0xFFF, 3, 4, 0xFFF pack to eight bytes; the odd index 3
and the even index 4 (the unpaired last entry) decode to 4 and 0xFFF. -/
theorem fat12_decode_pack12_witness :
    specPack12 [0xFF0, 0xFFF, 3, 4, 0xFFF] = [0xF0, 0xFF, 0xFF, 0x03, 0x40, 0x00, 0xFF, 0x0F] ∧
      nextCluster (specPack12 [0xFF0, 0xFFF, 3, 4, 0xFFF]) 3 = some 4 ∧
      nextCluster (specPack12 [0xFF0, 0xFFF, 3, 4, 0xFFF]) 4 = some 0xFFF :=
  ⟨by decide,
   fat12_decode_pack12 [0xFF0, 0xFFF, 3, 4, 0xFFF] (by decide) 3 (by decide) (by decide),
   fat12_decode_pack12 [0xFF0, 0xFFF, 3, 4, 0xFFF] (by decide) 4 (by decide) (by decide)⟩

/-! ## Directory lookup -/

theorem memcmp11_cases (g : Globals) (name : List Byte) (i : Nat) (hn : name.length = 11)
    (hi : 32 * i + 11 ≤ g.g_RootDirectory.length) :
    (memcmp11 name g.g_RootDirectory (sizeofDirectoryEntry * i) = some true ∧
        NameFieldEquals g name i) ∨
      (memcmp11 name g.g_RootDirectory (sizeofDirectoryEntry * i) = some false ∧
        ¬ NameFieldEquals g name i) := by
  have key : name = (g.g_RootDirectory.drop (32 * i)).take 11 ↔ NameFieldEquals g name i := by
    unfold NameFieldEquals
    constructor
    · intro h k hk
      rw [h, List.getElem?_take_of_lt hk, List.getElem?_drop]
    · intro h
      apply List.ext_getElem?
      intro k
      by_cases hk : k < 11
      · rw [List.getElem?_take_of_lt hk, List.getElem?_drop, h k hk]
      · rw [List.getElem?_eq_none (by omega), List.getElem?_eq_none]
        rw [List.length_take]
        omega
  unfold memcmp11 sizeofDirectoryEntry
  rw [if_pos ⟨by omega, hi⟩, List.take_of_length_le (le_of_eq hn)]
  by_cases h : name = (g.g_RootDirectory.drop (32 * i)).take 11
  · left
    exact ⟨by rw [beq_iff_eq.2 h], key.1 h⟩
  · right
    refine ⟨?_, fun hc => h (key.2 hc)⟩
    rw [beq_eq_false_iff_ne.2 h]

theorem findFileLoop_eq_found_iff (g : Globals) (name : List Byte) (hn : name.length = 11)
    (n i k : Nat) (hb : 32 * (i + n) ≤ g.g_RootDirectory.length) :
    findFileLoop g name i n = .found k ↔
      i ≤ k ∧ k < i + n ∧ NameFieldEquals g name k ∧
        ∀ j, i ≤ j → j < k → ¬ NameFieldEquals g name j := by
  induction n generalizing i with
  | zero =>
    simp only [findFileLoop]
    constructor
    · intro h; cases h
    · rintro ⟨h1, h2, _⟩; omega
  | succ n ih =>
    simp only [findFileLoop]
    rcases memcmp11_cases g name i hn (by omega) with ⟨he, hm⟩ | ⟨he, hm⟩
    · simp only [he]
      constructor
      · intro h
        cases h
        exact ⟨le_refl _, by omega, hm, fun j h1 h2 => by omega⟩
      · rintro ⟨h1, _, _, h4⟩
        rcases Nat.eq_or_lt_of_le h1 with h | h
        · rw [h]
        · exact absurd hm (h4 i (le_refl _) h)
    · simp only [he]
      rw [ih (i + 1) (by rw [show i + 1 + n = i + (n + 1) by omega]; exact hb)]
      constructor
      · rintro ⟨h1, h2, h3, h4⟩
        refine ⟨by omega, by omega, h3, fun j hj1 hj2 => ?_⟩
        rcases Nat.eq_or_lt_of_le hj1 with h | h
        · rw [← h]; exact hm
        · exact h4 j h hj2
      · rintro ⟨h1, h2, h3, h4⟩
        have hne : i ≠ k := by
          intro h
          rw [h] at hm
          exact hm h3
        exact ⟨by omega, by omega, h3, fun j hj1 hj2 => h4 j (by omega) hj2⟩

theorem findFileLoop_eq_notFound_iff (g : Globals) (name : List Byte) (hn : name.length = 11)
    (n i : Nat) (hb : 32 * (i + n) ≤ g.g_RootDirectory.length) :
    findFileLoop g name i n = .notFound ↔
      ∀ j, i ≤ j → j < i + n → ¬ NameFieldEquals g name j := by
  induction n generalizing i with
  | zero =>
    simp only [findFileLoop, true_iff]
    intro j h1 h2; omega
  | succ n ih =>
    simp only [findFileLoop]
    rcases memcmp11_cases g name i hn (by omega) with ⟨he, hm⟩ | ⟨he, hm⟩
    · simp only [he]
      constructor
      · intro h; cases h
      · intro h
        exact absurd hm (h i (le_refl _) (by omega))
    · simp only [he]
      rw [ih (i + 1) (by rw [show i + 1 + n = i + (n + 1) by omega]; exact hb)]
      constructor
      · intro h j hj1 hj2
        rcases Nat.eq_or_lt_of_le hj1 with h' | h'
        · rw [← h']; exact hm
        · exact h j h' (by omega)
      · intro h j hj1 hj2
        exact h j (by omega) (by omega)

/-- C4: for every loaded root directory (the buffer holds all `DirEntryCount`
entries of 32 bytes) and every 11-byte query name, `findFile` returns entry `i`
exactly when `i` is the smallest index below `DirEntryCount` whose `Name` field
equals the query byte for byte, and returns `NULL` exactly when no index below
`DirEntryCount` has such a `Name`; with `DirEntryCount = 0` it returns
`NULL`. -/
theorem findFile_first_match (g : Globals) (name : List Byte) (hn : name.length = 11)
    (hloaded : 32 * g.g_BootSector.DirEntryCount ≤ g.g_RootDirectory.length) :
    (∀ i, findFile g name = .found i ↔
        i < g.g_BootSector.DirEntryCount ∧ NameFieldEquals g name i ∧
          ∀ j, j < i → ¬ NameFieldEquals g name j) ∧
      (findFile g name = .notFound ↔
        ∀ i, i < g.g_BootSector.DirEntryCount → ¬ NameFieldEquals g name i) ∧
      (g.g_BootSector.DirEntryCount = 0 → findFile g name = .notFound) := by
  have hb : 32 * (0 + g.g_BootSector.DirEntryCount) ≤ g.g_RootDirectory.length := by
    rw [Nat.zero_add]; exact hloaded
  refine ⟨fun i => ?_, ?_, ?_⟩
  · unfold findFile
    rw [findFileLoop_eq_found_iff g name hn _ 0 i hb]
    constructor
    · rintro ⟨_, h2, h3, h4⟩
      exact ⟨by omega, h3, fun j hj => h4 j (Nat.zero_le _) hj⟩
    · rintro ⟨h1, h2, h3⟩
      exact ⟨Nat.zero_le _, by omega, h2, fun j _ hj => h3 j hj⟩
  · unfold findFile
    rw [findFileLoop_eq_notFound_iff g name hn _ 0 hb]
    constructor
    · intro h i hi
      exact h i (Nat.zero_le _) (by omega)
    · intro h j _ hj
      exact h j (by omega)
  · intro h0
    unfold findFile
    rw [h0]
    rfl

/-- In the example directory the query `B       TXT` equals the names of
entries 1 and 2 and not that of entry 0; `findFile` returns entry 1. -/
theorem findFile_first_match_witness :
    exampleName.length = 11 ∧
      findFile { g_BootSector := { DirEntryCount := 3 }, g_RootDirectory := exampleRootDirectory }
        exampleName = .found 1 ∧
      NameFieldEquals
        { g_BootSector := { DirEntryCount := 3 }, g_RootDirectory := exampleRootDirectory }
        exampleName 1 ∧
      ¬ NameFieldEquals
        { g_BootSector := { DirEntryCount := 3 }, g_RootDirectory := exampleRootDirectory }
        exampleName 0 :=
  have h := ((findFile_first_match
    { g_BootSector := { DirEntryCount := 3 }, g_RootDirectory := exampleRootDirectory }
    exampleName (by decide) (by decide)).1 1).1 (by decide)
  ⟨by decide, by decide, h.2.1, h.2.2 0 (by decide)⟩

/-! ## Cluster-chain reader -/

theorem readCluster_of_ok (g : Globals) (disk : Disk) (s : WalkState) (h : s.ok = true) :
    readCluster g disk s =
      ⟨clusterReadOk g disk s.currentCluster, s.currentCluster,
        s.outputBuffer + g.g_BootSector.SectorsPerCluster * g.g_BootSector.BytesPerSector,
        s.reads ++ [clusterRead g disk s.outputBuffer s.currentCluster]⟩ := by
  simp [readCluster, h, clusterRead, clusterReadOk]

theorem clusterRead_ok (g : Globals) (disk : Disk) (dest c : Nat) :
    (clusterRead g disk dest c).ok = clusterReadOk g disk c := rfl

theorem clusterRead_data (g : Globals) (disk : Disk) (dest c : Nat) :
    (clusterRead g disk dest c).data = clusterData g disk c := rfl

theorem clusterRead_cluster (g : Globals) (disk : Disk) (dest c : Nat) :
    (clusterRead g disk dest c).cluster = c := rfl

theorem clusterData_length (g : Globals) (disk : Disk) (c : Nat)
    (h : clusterReadOk g disk c = true) :
    (clusterData g disk c).length =
      g.g_BootSector.SectorsPerCluster * g.g_BootSector.BytesPerSector := by
  have := (readSectors_data_of_ok g disk (clusterLba g c) g.g_BootSector.SectorsPerCluster h).2
  rw [Nat.mul_comm]
  exact this

theorem readFileLoop_walk (g : Globals) (disk : Disk) (m : Nat) (b : Bool) (extra : Nat) :
    ∀ (cs : List Nat) (c : Nat) (s : WalkState), s.ok = true → s.currentCluster = c →
      Walks g disk (c :: cs) m b →
      readFileLoop g disk (extra + (cs.length + 1)) s =
        .returned b ⟨b, m,
          s.outputBuffer + (cs.length + 1) *
            (g.g_BootSector.SectorsPerCluster * g.g_BootSector.BytesPerSector),
          s.reads ++ chainReads g disk s.outputBuffer (c :: cs)⟩ := by
  intro cs
  induction cs with
  | nil =>
    intro c s hok hc hw
    obtain ⟨hn, hr, hm⟩ := hw
    subst hc
    show readFileLoop g disk (extra + 1) s = _
    rw [readFileLoop]
    simp only [hn, readCluster_of_ok g disk s hok, hr]
    have hcond : (b && decide (m < 0x0FF8)) = false := by
      rcases hm with h | h
      · simp [h]
      · simp; intro _; omega
    simp [hcond, chainReads]
  | cons c' cs ih =>
    intro c s hok hc hw
    obtain ⟨hn, hr, hlt, hrest⟩ := hw
    subst hc
    show readFileLoop g disk ((extra + (cs.length + 1)) + 1) s = _
    rw [readFileLoop]
    simp only [hn, readCluster_of_ok g disk s hok, hr, Bool.true_and, hlt, decide_True, if_true]
    rw [ih c' _ rfl rfl hrest]
    simp only [chainReads, List.length_cons, List.append_assoc, List.singleton_append]
    congr 2
    ring

theorem walks_of_fatChain (g : Globals) (disk : Disk) (m : Nat) (hm : 0x0FF8 ≤ m) :
    ∀ (cs : List Nat) (c : Nat), FatChain g.g_Fat (c :: cs) m → (∀ x ∈ cs, x < 0x0FF8) →
      (∀ x ∈ c :: cs, clusterReadOk g disk x = true) → Walks g disk (c :: cs) m true := by
  intro cs
  induction cs with
  | nil =>
    intro c hl _ hr
    exact ⟨hl, hr c (by simp), Or.inr hm⟩
  | cons c' cs ih =>
    intro c hl hlt hr
    exact ⟨hl.1, hr c (by simp), hlt c' (by simp),
      ih c' hl.2 (fun x hx => hlt x (by simp [hx])) (fun x hx => hr x (List.mem_cons_of_mem _ hx))⟩

theorem chainReads_map_cluster (g : Globals) (disk : Disk) (chain : List Nat) :
    ∀ dest, (chainReads g disk dest chain).map (fun r => r.cluster) = chain := by
  induction chain with
  | nil => intro dest; rfl
  | cons c cs ih =>
    intro dest
    simp only [chainReads, List.map_cons, ih, clusterRead_cluster]

theorem chainReads_length (g : Globals) (disk : Disk) (chain : List Nat) (dest : Nat) :
    (chainReads g disk dest chain).length = chain.length := by
  have := congrArg List.length (chainReads_map_cluster g disk chain dest)
  simpa using this

/-- C6: for a single-cluster file (the FAT entry of its starting cluster is any
value in `[0x0FF8, 0x0FFF]`) whose cluster read succeeds, `readFile` returns
success after one iteration, having made one read and written exactly
`SectorsPerCluster * BytesPerSector` bytes, the data of that cluster. This
holds for every starting cluster, in particular for those in `[2, 0x0FF8)`. -/
theorem readFile_single_cluster (g : Globals) (fileEntry : DirectoryEntry) (disk : Disk)
    (m extra : Nat)
    (hn : nextCluster g.g_Fat fileEntry.FirstClusterLow = some m)
    (hm : 0x0FF8 ≤ m ∧ m ≤ 0x0FFF)
    (hr : clusterReadOk g disk fileEntry.FirstClusterLow = true) :
    ∃ s, readFile g fileEntry disk (extra + 1) = .returned true s ∧
      s.reads.length = 1 ∧
      bytesWritten s.reads = g.g_BootSector.SectorsPerCluster * g.g_BootSector.BytesPerSector ∧
      outputContents s.reads = clusterData g disk fileEntry.FirstClusterLow ∧
      s.outputBuffer = g.g_BootSector.SectorsPerCluster * g.g_BootSector.BytesPerSector := by
  have hrun := readFileLoop_walk g disk m true extra [] fileEntry.FirstClusterLow
    (initialState fileEntry) rfl rfl ⟨hn, hr, Or.inr hm.1⟩
  refine ⟨_, hrun, ?_, ?_, ?_, ?_⟩
  · simp [initialState, chainReads]
  · simp only [initialState, chainReads, bytesWritten, List.nil_append, List.map_cons,
      List.map_nil, List.sum_cons, List.sum_nil, Nat.add_zero, clusterRead_data]
    exact clusterData_length g disk _ hr
  · simp [initialState, chainReads, outputContents, clusterRead_data]
  · simp [initialState]

/-- The file at cluster 4 of the example FAT (entry 0xFFF) on the example
image: one read, four bytes written (image bytes 12..15), success. -/
theorem readFile_single_cluster_witness :
    ∃ s, readFile exampleGlobals { FirstClusterLow := 4 } exampleDisk 1 = .returned true s ∧
      s.reads.length = 1 ∧ bytesWritten s.reads = 4 ∧
      outputContents s.reads = [12, 13, 14, 15] := by
  obtain ⟨s, h1, h2, h3, h4, _⟩ := readFile_single_cluster exampleGlobals
    { FirstClusterLow := 4 } exampleDisk 0xFFF 0 (by decide) (by decide) (by decide)
  refine ⟨s, h1, h2, h3, ?_⟩
  rw [h4]
  decide

theorem readFileLoop_reads_shape (g : Globals) (disk : Disk) :
    ∀ (fuel : Nat) (s : WalkState), s.ok = true →
      ∃ rest, (readFileLoop g disk (fuel + 1) s).state.reads =
          s.reads ++ clusterRead g disk s.outputBuffer s.currentCluster :: rest ∧
        ∀ r ∈ rest, r.cluster < 0x0FF8 := by
  intro fuel
  induction fuel with
  | zero =>
    intro s hok
    refine ⟨[], ?_, by simp⟩
    rw [readFileLoop]
    cases hn : nextCluster g.g_Fat s.currentCluster with
    | none => simp only [Outcome.state, readCluster_of_ok g disk s hok]
    | some c =>
      simp only [readCluster_of_ok g disk s hok, readFileLoop]
      split_ifs <;> rfl
  | succ fuel ih =>
    intro s hok
    rw [readFileLoop]
    cases hn : nextCluster g.g_Fat s.currentCluster with
    | none => exact ⟨[], by simp only [Outcome.state, readCluster_of_ok g disk s hok], by simp⟩
    | some c =>
      simp only [readCluster_of_ok g disk s hok]
      split_ifs with hcond
      · simp only [Bool.and_eq_true, decide_eq_true_eq] at hcond
        obtain ⟨rest, hrest, hlt⟩ := ih
          ⟨clusterReadOk g disk s.currentCluster, c,
            s.outputBuffer + g.g_BootSector.SectorsPerCluster * g.g_BootSector.BytesPerSector,
            s.reads ++ [clusterRead g disk s.outputBuffer s.currentCluster]⟩ hcond.1
        refine ⟨clusterRead g disk
          (s.outputBuffer + g.g_BootSector.SectorsPerCluster * g.g_BootSector.BytesPerSector) c
            :: rest, ?_, ?_⟩
        · rw [hrest]
          simp
        · intro r hr
          rcases List.mem_cons.1 hr with h | h
          · rw [h]; exact hcond.2
          · exact hlt r h
      · exact ⟨[], rfl, by simp⟩

theorem fatWord_replicate (n k : Nat) (b : Byte) (h : k + 1 < n) :
    fatWord (List.replicate n b) k = some (b.val + 256 * b.val) := by
  have h0 : k < n := by omega
  simp [fatWord, List.getElem?_replicate, h, h0]

theorem readSectors_at_suffix (g : Globals) (pre data : List Byte) (lba count : Nat)
    (hpos : (lba * g.g_BootSector.BytesPerSector) % 2 ^ 32 = pre.length)
    (hlen : data.length = g.g_BootSector.BytesPerSector * count)
    (hb : 0 < g.g_BootSector.BytesPerSector) :
    readSectors g (pre ++ data) lba count = (true, data) := by
  have hok : (readSectors g (pre ++ data) lba count).1 = true := by
    rw [readSectors_ok_iff]
    right
    refine ⟨hb, ?_⟩
    rw [hpos, List.length_append, hlen]
  have hd := (readSectors_data_of_ok g (pre ++ data) lba count hok).1
  rw [hpos, List.drop_left, ← hlen, List.take_length] at hd
  exact Prod.ext hok hd

theorem nextCluster_endMarkerFat : nextCluster endMarkerFat 0x0FF8 = some 0xFFF := by
  unfold nextCluster endMarkerFat
  rw [if_pos (by norm_num), fatWord_replicate _ _ _ (by norm_num)]
  rfl

theorem readSectors_endMarkerDisk :
    readSectors endMarkerGlobals endMarkerDisk 8174 2 = (true, [1, 2, 3, 4]) :=
  readSectors_at_suffix endMarkerGlobals (List.replicate 16348 0) [1, 2, 3, 4] 8174 2
    (by rw [List.length_replicate]; rfl) rfl (by decide)

/-- C8, as stated, fails: for a directory entry whose starting cluster is
0x0FF8, `readFile` reads the two sectors at LBA 8174, writes their four bytes
to the output buffer, and only then leaves the loop. -/
theorem readFile_end_marker_start_is_read :
    0x0FF8 ≤ ({ FirstClusterLow := 0x0FF8 } : DirectoryEntry).FirstClusterLow ∧
      readFile endMarkerGlobals { FirstClusterLow := 0x0FF8 } endMarkerDisk 1 =
        .returned true ⟨true, 0xFFF, 4, [⟨0x0FF8, 8174, 0, [1, 2, 3, 4], true⟩]⟩ ∧
      bytesWritten (readFile endMarkerGlobals { FirstClusterLow := 0x0FF8 }
        endMarkerDisk 1).state.reads = 4 := by
  have hl : clusterLba endMarkerGlobals 0x0FF8 = 8174 := by decide
  have hn : nextCluster endMarkerGlobals.g_Fat 0x0FF8 = some 0xFFF := nextCluster_endMarkerFat
  have hspc : endMarkerGlobals.g_BootSector.SectorsPerCluster = 2 := rfl
  have hbps : endMarkerGlobals.g_BootSector.BytesPerSector = 2 := rfl
  have hrun : readFile endMarkerGlobals { FirstClusterLow := 0x0FF8 } endMarkerDisk 1 =
      .returned true ⟨true, 0xFFF, 4, [⟨0x0FF8, 8174, 0, [1, 2, 3, 4], true⟩]⟩ := by
    show readFileLoop endMarkerGlobals endMarkerDisk 1 (initialState _) = _
    rw [readFileLoop, readCluster_of_ok _ _ _ rfl]
    simp only [initialState, hn, clusterReadOk, clusterRead, hl]
    rw [hspc, hbps, readSectors_endMarkerDisk]
    rfl
  refine ⟨by decide, hrun, ?_⟩
  rw [hrun]
  rfl

/-- C8, amended: `readFile` tests the cluster value only after a cluster has
been read. The sectors of the starting cluster are always read, at the LBA of
`FirstClusterLow` and into the start of the output buffer, whatever its value;
every cluster read after the first has a value below 0x0FF8. -/
theorem readFile_reads_first_then_below_marker (g : Globals) (fileEntry : DirectoryEntry)
    (disk : Disk) (fuel : Nat) :
    ∃ rest, (readFile g fileEntry disk (fuel + 1)).state.reads =
        clusterRead g disk 0 fileEntry.FirstClusterLow :: rest ∧
      ∀ r ∈ rest, r.cluster < 0x0FF8 := by
  obtain ⟨rest, h1, h2⟩ := readFileLoop_reads_shape g disk fuel (initialState fileEntry) rfl
  exact ⟨rest, by simpa [initialState] using h1, h2⟩

/-! ## Sector reader: offsets and success -/

theorem readSectors_exact_of_no_wrap (g : Globals) (disk : Disk) (lba count : Nat)
    (hw : lba * g.g_BootSector.BytesPerSector < 2 ^ 32)
    (h : (readSectors g disk lba count).1 = true) :
    (readSectors g disk lba count).2 =
      (disk.drop (lba * g.g_BootSector.BytesPerSector)).take
        (count * g.g_BootSector.BytesPerSector) := by
  have := (readSectors_data_of_ok g disk lba count h).1
  rw [Nat.mod_eq_of_lt hw, Nat.mul_comm g.g_BootSector.BytesPerSector] at this
  exact this

/-- C9, the code at the failing input: with 512-byte sectors, reading one
sector at LBA 2^23 from an image of a single sector succeeds and delivers the
512 bytes at offset 0, although the image has no byte at offset 2^23 * 512 =
2^32: the offset is the product reduced modulo 2^32. -/
theorem readSectors_offset_wraps :
    8388608 < 2 ^ 32 ∧
      readSectors sector512Globals oneSectorDisk 8388608 1 = (true, oneSectorDisk) ∧
      oneSectorDisk.length = 512 ∧
      (oneSectorDisk.drop (8388608 * 512)).take (1 * 512) = [] := by
  have hlen : oneSectorDisk.length = 512 := List.length_replicate _ _
  refine ⟨by norm_num, ?_, hlen, ?_⟩
  · have := readSectors_at_suffix sector512Globals [] oneSectorDisk 8388608 1 rfl
      (by rw [hlen]; rfl) (by decide)
    simpa using this
  · rw [List.drop_of_length_le (by rw [hlen]; norm_num)]
    rfl

/-- C10, as stated, fails in both directions: with 512-byte sectors a read of
zero sectors at LBA 1 of an empty image reports success although the image
holds fewer than 512 bytes; with `BytesPerSector = 0` a read of one sector
reports failure although the image holds the zero bytes asked for. -/
theorem readSectors_success_not_by_size :
    ((([] : Disk).length < 1 * 512 + 0 * 512) ∧
        (readSectors sector512Globals [] 1 0).1 = true) ∧
      ((0 * 0 + 1 * 0 ≤ ([] : Disk).length) ∧
        (readSectors { g_BootSector := { BytesPerSector := 0 } } [] 0 1).1 = false) := by
  decide

/-- C10, amended: when the byte offset `lba * BytesPerSector` is below `2 ^ 32`,
`readSectors` reports success exactly when `count = 0`, or `BytesPerSector > 0`
and the image holds at least `lba * BytesPerSector + count * BytesPerSector`
bytes; in every other case it reports failure. -/
theorem readSectors_success_iff (g : Globals) (disk : Disk) (lba count : Nat)
    (hw : lba * g.g_BootSector.BytesPerSector < 2 ^ 32) :
    ((readSectors g disk lba count).1 = true ↔
      count = 0 ∨ (0 < g.g_BootSector.BytesPerSector ∧
        lba * g.g_BootSector.BytesPerSector + count * g.g_BootSector.BytesPerSector
          ≤ disk.length)) ∧
    ((readSectors g disk lba count).1 = false ↔
      0 < count ∧ (g.g_BootSector.BytesPerSector = 0 ∨
        disk.length <
          lba * g.g_BootSector.BytesPerSector + count * g.g_BootSector.BytesPerSector)) := by
  have h := readSectors_ok_iff g disk lba count
  rw [Nat.mod_eq_of_lt hw, Nat.mul_comm g.g_BootSector.BytesPerSector count] at h
  refine ⟨h, ?_⟩
  rw [← Bool.not_eq_true, h]
  constructor
  · intro hn
    refine ⟨by omega, ?_⟩
    by_contra hc
    apply hn
    right
    omega
  · rintro ⟨h1, h2⟩ hc
    rcases hc with h0 | ⟨hb, hle⟩
    · omega
    · rcases h2 with h2 | h2 <;> omega

/-- On the 36-byte example image with two-byte sectors, two sectors at LBA 16
(bytes 32..35) are read successfully, two sectors at LBA 17 are not. -/
theorem readSectors_success_iff_witness :
    (readSectors exampleGlobals exampleDisk 16 2).1 = true ∧
      (readSectors exampleGlobals exampleDisk 17 2).1 = false :=
  ⟨(readSectors_success_iff exampleGlobals exampleDisk 16 2 (by decide)).1.2
      (Or.inr ⟨by decide, by decide⟩),
   (readSectors_success_iff exampleGlobals exampleDisk 17 2 (by decide)).2.2
      ⟨by decide, Or.inr (by decide)⟩⟩

/-! ## Boot sector reader -/

theorem sizeofBootSector_eq : sizeofBootSector = 62 := by decide

theorem readBootSector_flag (g : Globals) (disk : Disk) :
    (readBootSector g disk).1 = true ↔ 62 ≤ disk.length := by
  have h := fread_items_eq_iff disk 0 62 1
  unfold readBootSector
  rw [sizeofBootSector_eq]
  simp only [decide_eq_true_eq]
  have hle : (fread disk 0 62 1).2 ≤ 1 := by
    unfold fread
    simp only [show ¬ ((62 : Nat) = 0 ∨ (1 : Nat) = 0) by omega, if_false, List.drop_zero,
      List.length_take]
    omega
  constructor
  · intro hpos
    have h1 : (fread disk 0 62 1).2 = 1 := by omega
    rcases h.1 h1 with h0 | ⟨_, h2⟩
    · omega
    · omega
  · intro hlen
    have := h.2 (Or.inr ⟨by omega, by omega⟩)
    omega

/-- C14: `readBootSector` succeeds exactly when the disk image holds at least
the 62 bytes of the packed `BootSector` record, and fails exactly when it holds
fewer. -/
theorem readBootSector_fails_iff_short (g : Globals) (disk : Disk) :
    sizeofBootSector = 62 ∧
      ((readBootSector g disk).1 = false ↔ disk.length < sizeofBootSector) ∧
      ((readBootSector g disk).1 = true ↔ sizeofBootSector ≤ disk.length) := by
  have h := readBootSector_flag g disk
  rw [sizeofBootSector_eq]
  refine ⟨rfl, ?_, h⟩
  rw [← Bool.not_eq_true, h]
  omega

theorem readBootSector_record (g : Globals) (disk : Disk) :
    (readBootSector g disk).2.g_BootSector = decodeBootSector (disk.take 62) := by
  unfold readBootSector fread
  rw [sizeofBootSector_eq]
  simp

theorem getD_take (b : List Byte) (n k : Nat) (h : k < n) :
    (b.take n).getD k 0 = b.getD k 0 := by
  simp [List.getD_eq_getElem?_getD, List.getElem?_take_of_lt h]

theorem readBootSector_geometry_getD (g : Globals) (b : Disk) :
    (readBootSector g b).2.g_BootSector.BytesPerSector =
        (b.getD 11 0).val + 256 * (b.getD 12 0).val ∧
      (readBootSector g b).2.g_BootSector.SectorsPerCluster = (b.getD 13 0).val ∧
      (readBootSector g b).2.g_BootSector.ReservedSectors =
        (b.getD 14 0).val + 256 * (b.getD 15 0).val ∧
      (readBootSector g b).2.g_BootSector.FatCount = (b.getD 16 0).val ∧
      (readBootSector g b).2.g_BootSector.DirEntryCount =
        (b.getD 17 0).val + 256 * (b.getD 18 0).val ∧
      (readBootSector g b).2.g_BootSector.SectorsPerFat =
        (b.getD 22 0).val + 256 * (b.getD 23 0).val := by
  rw [readBootSector_record g b]
  have e2 : fieldOffset bootSectorFieldSizes 2 = 11 := by decide
  have e3 : fieldOffset bootSectorFieldSizes 3 = 13 := by decide
  have e4 : fieldOffset bootSectorFieldSizes 4 = 14 := by decide
  have e5 : fieldOffset bootSectorFieldSizes 5 = 16 := by decide
  have e6 : fieldOffset bootSectorFieldSizes 6 = 17 := by decide
  have e9 : fieldOffset bootSectorFieldSizes 9 = 22 := by decide
  simp only [decodeBootSector, intField, e2, e3, e4, e5, e6, e9]
  simp only [bootSectorFieldSizes, List.getD_cons_succ, List.getD_cons_zero, leValue,
    Nat.mul_zero, Nat.add_zero]
  simp only [getD_take b 62 _ (show 11 < 62 by omega), getD_take b 62 _ (show 12 < 62 by omega),
    getD_take b 62 _ (show 13 < 62 by omega), getD_take b 62 _ (show 14 < 62 by omega),
    getD_take b 62 _ (show 15 < 62 by omega), getD_take b 62 _ (show 16 < 62 by omega),
    getD_take b 62 _ (show 17 < 62 by omega), getD_take b 62 _ (show 18 < 62 by omega),
    getD_take b 62 _ (show 22 < 62 by omega), getD_take b 62 _ (show 23 < 62 by omega)]
  simp

theorem getD_eq_getElem_of_lt (b : List Byte) (k : Nat) (hk : k < b.length) :
    b.getD k 0 = b[k] := by
  simp [List.getD_eq_getElem?_getD, List.getElem?_eq_getElem hk]

/-- C15: for every disk image of at least 62 bytes `b`, `readBootSector`
succeeds and decodes the geometry fields from fixed byte offsets, little-endian
and with no padding: `BytesPerSector = b[11] + 256 * b[12]`,
`SectorsPerCluster = b[13]`, `ReservedSectors = b[14] + 256 * b[15]`,
`FatCount = b[16]`, `DirEntryCount = b[17] + 256 * b[18]`,
`SectorsPerFat = b[22] + 256 * b[23]`. -/
theorem readBootSector_geometry_offsets (g : Globals) (b : Disk) (h : 62 ≤ b.length) :
    (readBootSector g b).1 = true ∧
      (readBootSector g b).2.g_BootSector.BytesPerSector = b[11].val + 256 * b[12].val ∧
      (readBootSector g b).2.g_BootSector.SectorsPerCluster = b[13].val ∧
      (readBootSector g b).2.g_BootSector.ReservedSectors = b[14].val + 256 * b[15].val ∧
      (readBootSector g b).2.g_BootSector.FatCount = b[16].val ∧
      (readBootSector g b).2.g_BootSector.DirEntryCount = b[17].val + 256 * b[18].val ∧
      (readBootSector g b).2.g_BootSector.SectorsPerFat = b[22].val + 256 * b[23].val := by
  have hk := readBootSector_geometry_getD g b
  simp only [getD_eq_getElem_of_lt b 11 (by omega), getD_eq_getElem_of_lt b 12 (by omega),
    getD_eq_getElem_of_lt b 13 (by omega), getD_eq_getElem_of_lt b 14 (by omega),
    getD_eq_getElem_of_lt b 15 (by omega), getD_eq_getElem_of_lt b 16 (by omega),
    getD_eq_getElem_of_lt b 17 (by omega), getD_eq_getElem_of_lt b 18 (by omega),
    getD_eq_getElem_of_lt b 22 (by omega), getD_eq_getElem_of_lt b 23 (by omega)] at hk
  exact ⟨(readBootSector_flag g b).2 h, hk⟩

/-- The boot sector of the small image decodes to 32-byte sectors, 1 sector
per cluster, 2 reserved sectors, 2 FATs, 2 directory entries, 1 sector per
FAT. -/
theorem readBootSector_geometry_offsets_witness :
    (readBootSector {} (smallImage 1)).2.g_BootSector.BytesPerSector = 32 ∧
      (readBootSector {} (smallImage 1)).2.g_BootSector.SectorsPerCluster = 1 ∧
      (readBootSector {} (smallImage 1)).2.g_BootSector.ReservedSectors = 2 ∧
      (readBootSector {} (smallImage 1)).2.g_BootSector.FatCount = 2 ∧
      (readBootSector {} (smallImage 1)).2.g_BootSector.DirEntryCount = 2 ∧
      (readBootSector {} (smallImage 1)).2.g_BootSector.SectorsPerFat = 1 :=
  (readBootSector_geometry_offsets {} (smallImage 1) (by simp [smallImage, smallBootSector])).2

/-! ## FAT loader -/

theorem readFat_eq_some (g : Globals) (disk : Disk) (ok : Bool) (g' : Globals)
    (h : readFat g disk = some (ok, g')) :
    g.g_BootSector.SectorsPerFat * g.g_BootSector.BytesPerSector < 2 ^ 31 ∧
      ok = (readSectors g disk g.g_BootSector.ReservedSectors g.g_BootSector.SectorsPerFat).1 ∧
      g'.g_Fat =
        (readSectors g disk g.g_BootSector.ReservedSectors g.g_BootSector.SectorsPerFat).2 := by
  unfold readFat at h
  simp only [] at h
  split_ifs at h with hov
  simp only [Option.some.injEq, Prod.mk.injEq] at h
  obtain ⟨h1, h2⟩ := h
  refine ⟨by omega, h1.symm, ?_⟩
  rw [← h2]

theorem readFat_of_no_overflow (g : Globals) (disk : Disk)
    (h : g.g_BootSector.SectorsPerFat * g.g_BootSector.BytesPerSector < 2 ^ 31) :
    readFat g disk =
      some ((readSectors g disk g.g_BootSector.ReservedSectors g.g_BootSector.SectorsPerFat).1,
        { g with g_Fat :=
          (readSectors g disk g.g_BootSector.ReservedSectors g.g_BootSector.SectorsPerFat).2 }) := by
  unfold readFat
  simp only []
  rw [if_neg (by omega)]

theorem readSectors_congr_bootSector (g g2 : Globals) (disk : Disk) (lba count : Nat)
    (h : g2.g_BootSector.BytesPerSector = g.g_BootSector.BytesPerSector) :
    readSectors g2 disk lba count = readSectors g disk lba count := by
  unfold readSectors
  rw [h]

/-- C13: for every boot sector (fields in their C ranges) and disk image on
which `readFat` succeeds, the loaded FAT buffer is exactly the
`SectorsPerFat * BytesPerSector` bytes of the image from byte offset
`ReservedSectors * BytesPerSector` on, the first FAT copy. The loaded bytes do
not depend on `FatCount` nor on the image outside that region: with any other
`FatCount` and any image that agrees on the region, `readFat` succeeds and
loads the same bytes. -/
theorem readFat_loads_first_copy (g : Globals) (disk : Disk) (g' : Globals)
    (ht : g.g_BootSector.WellTyped) (h : readFat g disk = some (true, g')) :
    g'.g_Fat =
        (disk.drop (g.g_BootSector.ReservedSectors * g.g_BootSector.BytesPerSector)).take
          (g.g_BootSector.SectorsPerFat * g.g_BootSector.BytesPerSector) ∧
      g'.g_Fat.length = g.g_BootSector.SectorsPerFat * g.g_BootSector.BytesPerSector ∧
      ∀ (fatCount : Nat) (disk2 : Disk),
        (disk2.drop (g.g_BootSector.ReservedSectors * g.g_BootSector.BytesPerSector)).take
            (g.g_BootSector.SectorsPerFat * g.g_BootSector.BytesPerSector) =
          (disk.drop (g.g_BootSector.ReservedSectors * g.g_BootSector.BytesPerSector)).take
            (g.g_BootSector.SectorsPerFat * g.g_BootSector.BytesPerSector) →
        ∃ g2, readFat { g with g_BootSector := { g.g_BootSector with FatCount := fatCount } }
            disk2 = some (true, g2) ∧ g2.g_Fat = g'.g_Fat := by
  obtain ⟨h1, _, h3, _, _, _⟩ := ht
  obtain ⟨hov, hok, hfat⟩ := readFat_eq_some g disk true g' h
  have hw : g.g_BootSector.ReservedSectors * g.g_BootSector.BytesPerSector < 2 ^ 32 := by
    have : g.g_BootSector.ReservedSectors * g.g_BootSector.BytesPerSector ≤
        (2 ^ 16 - 1) * (2 ^ 16 - 1) := Nat.mul_le_mul (by omega) (by omega)
    omega
  have hdata := readSectors_exact_of_no_wrap g disk _ _ hw hok.symm
  have hlen := (readSectors_data_of_ok g disk _ _ hok.symm).2
  rw [← hfat] at hdata hlen
  rw [Nat.mul_comm] at hlen
  refine ⟨hdata, hlen, ?_⟩
  intro fatCount disk2 hsame
  have hlen2 := congrArg List.length hsame
  rw [← hdata, hlen] at hlen2
  have hok2 : (readSectors g disk2 g.g_BootSector.ReservedSectors
      g.g_BootSector.SectorsPerFat).1 = true := by
    rw [readSectors_ok_iff, Nat.mod_eq_of_lt hw]
    rw [List.length_take, List.length_drop] at hlen2
    by_cases hc : g.g_BootSector.SectorsPerFat = 0
    · exact Or.inl hc
    · right
      have hb : 0 < g.g_BootSector.BytesPerSector := by
        rcases Nat.eq_zero_or_pos g.g_BootSector.BytesPerSector with h0 | h0
        · have hfl := (readSectors_ok_iff g disk _ _).1 hok.symm
          rcases hfl with hfl | ⟨hfl, _⟩
          · exact absurd hfl hc
          · exact hfl
        · exact h0
      refine ⟨hb, ?_⟩
      have hpos : 0 < g.g_BootSector.SectorsPerFat * g.g_BootSector.BytesPerSector :=
        Nat.mul_pos (Nat.pos_of_ne_zero hc) hb
      rw [Nat.mul_comm g.g_BootSector.BytesPerSector]
      omega
  have hdata2 := readSectors_exact_of_no_wrap g disk2 _ _ hw hok2
  have heq : readSectors { g with g_BootSector := { g.g_BootSector with FatCount := fatCount } }
      disk2 g.g_BootSector.ReservedSectors g.g_BootSector.SectorsPerFat =
      readSectors g disk2 g.g_BootSector.ReservedSectors g.g_BootSector.SectorsPerFat :=
    readSectors_congr_bootSector _ g disk2 _ _ rfl
  have hrun : readFat { g with g_BootSector := { g.g_BootSector with FatCount := fatCount } }
      disk2 = some (true,
        { g_BootSector := { g.g_BootSector with FatCount := fatCount },
          g_Fat := g'.g_Fat, g_RootDirectory := g.g_RootDirectory,
          g_RootDirectoryEnd := g.g_RootDirectoryEnd }) := by
    refine (readFat_of_no_overflow
      { g with g_BootSector := { g.g_BootSector with FatCount := fatCount } } disk2 hov).trans ?_
    show some ((readSectors
      { g with g_BootSector := { g.g_BootSector with FatCount := fatCount } } disk2
        g.g_BootSector.ReservedSectors g.g_BootSector.SectorsPerFat).1, _) = _
    rw [heq, hok2, hdata2, hsame, ← hdata]
  exact ⟨_, hrun, rfl⟩

/-- On the small image `readFat` loads the 32 bytes of the first FAT copy
(bytes 64..95), although there are two copies and the second one is blank. -/
theorem readFat_loads_first_copy_witness :
    ∃ g', readFat (readBootSector {} (smallImage 1)).2 (smallImage 1) = some (true, g') ∧
      g'.g_Fat = ((smallImage 1).drop 64).take 32 ∧ g'.g_Fat = smallFat := by
  have hr : readFat (readBootSector {} (smallImage 1)).2 (smallImage 1) =
      some (true, { (readBootSector {} (smallImage 1)).2 with g_Fat := smallFat }) := by
    decide
  exact ⟨_, hr, (readFat_loads_first_copy (readBootSector {} (smallImage 1)).2 (smallImage 1) _
    (by decide) hr).1, rfl⟩

/-! ## Geometry: rounding, the data region and the directory buffer -/

theorem ceilDiv_eq_ite (a b : Nat) (hb : 0 < b) :
    ceilDiv a b = if a % b > 0 then a / b + 1 else a / b := by
  unfold ceilDiv
  have hdm := Nat.div_add_mod a b
  have hml := Nat.mod_lt a hb
  split_ifs with h
  · apply Nat.div_eq_of_lt_le
    · have e1 : (a / b + 1) * b = b * (a / b) + b := by ring
      rw [e1]; omega
    · have e2 : (a / b + 1 + 1) * b = b * (a / b) + b + b := by ring
      rw [e2]; omega
  · apply Nat.div_eq_of_lt_le
    · have e1 : a / b * b = b * (a / b) := by ring
      rw [e1]; omega
    · have e2 : (a / b + 1) * b = b * (a / b) + b := by ring
      rw [e2]; omega

theorem ceilDiv_mul_ge (a b : Nat) (hb : 0 < b) : a ≤ ceilDiv a b * b := by
  rw [ceilDiv_eq_ite a b hb]
  have hdm := Nat.div_add_mod a b
  have hml := Nat.mod_lt a hb
  split_ifs with h
  · have e1 : (a / b + 1) * b = b * (a / b) + b := by ring
    rw [e1]; omega
  · have e1 : a / b * b = b * (a / b) := by ring
    rw [e1]; omega

theorem ceilDiv_mul_lt (a b : Nat) (hb : 0 < b) : ceilDiv a b * b < a + b := by
  rw [ceilDiv_eq_ite a b hb]
  have hdm := Nat.div_add_mod a b
  have hml := Nat.mod_lt a hb
  split_ifs with h
  · have e1 : (a / b + 1) * b = b * (a / b) + b := by ring
    rw [e1]; omega
  · have e1 : a / b * b = b * (a / b) := by ring
    rw [e1]; omega

theorem readRootDirectory_eq (g : Globals) (disk : Disk)
    (ht : g.g_BootSector.WellTyped) (hb : 0 < g.g_BootSector.BytesPerSector) :
    readRootDirectory g disk =
      some ((readSectors g disk
          (g.g_BootSector.ReservedSectors + g.g_BootSector.SectorsPerFat * g.g_BootSector.FatCount)
          (ceilDiv (32 * g.g_BootSector.DirEntryCount) g.g_BootSector.BytesPerSector)).1,
        { g with
          g_RootDirectoryEnd :=
            g.g_BootSector.ReservedSectors +
              g.g_BootSector.SectorsPerFat * g.g_BootSector.FatCount +
              ceilDiv (32 * g.g_BootSector.DirEntryCount) g.g_BootSector.BytesPerSector
          g_RootDirectory := (readSectors g disk
            (g.g_BootSector.ReservedSectors +
              g.g_BootSector.SectorsPerFat * g.g_BootSector.FatCount)
            (ceilDiv (32 * g.g_BootSector.DirEntryCount) g.g_BootSector.BytesPerSector)).2 }) ∧
      g.g_BootSector.ReservedSectors + g.g_BootSector.SectorsPerFat * g.g_BootSector.FatCount +
        ceilDiv (32 * g.g_BootSector.DirEntryCount) g.g_BootSector.BytesPerSector < 2 ^ 25 ∧
      ceilDiv (32 * g.g_BootSector.DirEntryCount) g.g_BootSector.BytesPerSector *
        g.g_BootSector.BytesPerSector < 2 ^ 22 := by
  obtain ⟨h1, _, h3, h4, h5, h6⟩ := ht
  have hsz : 32 * g.g_BootSector.DirEntryCount < 2 ^ 21 := by omega
  have hlba : g.g_BootSector.ReservedSectors +
      g.g_BootSector.SectorsPerFat * g.g_BootSector.FatCount < 2 ^ 24 + 2 ^ 16 := by
    have : g.g_BootSector.SectorsPerFat * g.g_BootSector.FatCount ≤ 2 ^ 16 * 2 ^ 8 :=
      Nat.mul_le_mul (by omega) (by omega)
    omega
  have hdiv : 32 * g.g_BootSector.DirEntryCount / g.g_BootSector.BytesPerSector < 2 ^ 21 :=
    lt_of_le_of_lt (Nat.div_le_self _ _) hsz
  have hcd := ceilDiv_eq_ite (32 * g.g_BootSector.DirEntryCount) g.g_BootSector.BytesPerSector hb
  have hcl : ceilDiv (32 * g.g_BootSector.DirEntryCount) g.g_BootSector.BytesPerSector
      ≤ 2 ^ 21 := by
    rw [hcd]; split_ifs <;> omega
  have hmul := ceilDiv_mul_lt (32 * g.g_BootSector.DirEntryCount)
    g.g_BootSector.BytesPerSector hb
  refine ⟨?_, by omega, by omega⟩
  unfold readRootDirectory
  simp only [sizeofDirectoryEntry]
  rw [if_neg (by omega), Nat.mod_eq_of_lt (show 32 * g.g_BootSector.DirEntryCount < 2 ^ 32 by omega),
    Nat.mod_eq_of_lt (show g.g_BootSector.ReservedSectors +
      g.g_BootSector.SectorsPerFat * g.g_BootSector.FatCount < 2 ^ 32 by omega)]
  have e1 : (if 32 * g.g_BootSector.DirEntryCount % g.g_BootSector.BytesPerSector > 0 then
      (32 * g.g_BootSector.DirEntryCount / g.g_BootSector.BytesPerSector + 1) % 2 ^ 32
      else 32 * g.g_BootSector.DirEntryCount / g.g_BootSector.BytesPerSector) =
      ceilDiv (32 * g.g_BootSector.DirEntryCount) g.g_BootSector.BytesPerSector := by
    rw [hcd]
    split_ifs
    · exact Nat.mod_eq_of_lt (by omega)
    · rfl
  simp only [e1]
  rw [Nat.mod_eq_of_lt (by omega)]

theorem fatWord_lt (fat : List Byte) (k w : Nat) (h : fatWord fat k = some w) : w < 2 ^ 16 := by
  unfold fatWord at h
  split at h
  · rename_i lo hi _ _
    have h1 := lo.isLt
    have h2 := hi.isLt
    simp only [Option.some.injEq] at h
    omega
  · cases h

theorem nextCluster_lt (fat : List Byte) (c v : Nat) (h : nextCluster fat c = some v) :
    v < 2 ^ 12 := by
  unfold nextCluster at h
  simp only [] at h
  cases hw : fatWord fat ((c * 3 / 2) % 2 ^ 32) with
  | none =>
    rw [hw] at h
    split_ifs at h <;> simp at h
  | some w =>
    have hlt := fatWord_lt fat _ w hw
    rw [hw] at h
    split_ifs at h
    · simp only [Option.map_some', Option.some.injEq] at h
      rw [← h, show (0x0FFF : Nat) = 2 ^ 12 - 1 by norm_num, Nat.and_pow_two_sub_one_eq_mod]
      exact Nat.mod_lt _ (by norm_num)
    · simp only [Option.map_some', Option.some.injEq] at h
      rw [← h, Nat.shiftRight_eq_div_pow]
      omega

theorem readFileLoop_reads_inv (g : Globals) (disk : Disk) (P : SectorRead → Prop)
    (hP : ∀ dest c, c < 2 ^ 16 → P (clusterRead g disk dest c)) :
    ∀ (fuel : Nat) (s : WalkState), s.ok = true → s.currentCluster < 2 ^ 16 →
      (∀ r ∈ s.reads, P r) → ∀ r ∈ (readFileLoop g disk fuel s).state.reads, P r := by
  intro fuel
  induction fuel with
  | zero =>
    intro s _ _ hall r hr
    exact hall r hr
  | succ fuel ih =>
    intro s hok hc hall
    have hall1 : ∀ r ∈ s.reads ++ [clusterRead g disk s.outputBuffer s.currentCluster], P r := by
      intro r hr
      rcases List.mem_append.1 hr with h | h
      · exact hall r h
      · have hre : r = clusterRead g disk s.outputBuffer s.currentCluster := by simpa using h
        rw [hre]
        exact hP _ _ hc
    rw [readFileLoop]
    cases hn : nextCluster g.g_Fat s.currentCluster with
    | none =>
      simp only [Outcome.state, readCluster_of_ok g disk s hok]
      exact hall1
    | some c =>
      have hc' : c < 2 ^ 16 := by
        have := nextCluster_lt _ _ _ hn
        omega
      simp only [readCluster_of_ok g disk s hok]
      split_ifs with hcond
      · simp only [Bool.and_eq_true] at hcond
        exact ih _ hcond.1 hc' hall1
      · simp only [Outcome.state]
        exact hall1

theorem clusterLba_of_ge_two (g : Globals) (c : Nat) (hc : 2 ≤ c)
    (h : g.g_RootDirectoryEnd + (c - 2) * g.g_BootSector.SectorsPerCluster < 2 ^ 32) :
    clusterLba g c = g.g_RootDirectoryEnd + (c - 2) * g.g_BootSector.SectorsPerCluster := by
  unfold clusterLba
  have e : ((g.g_RootDirectoryEnd : Int) +
      ((c : Int) - 2) * (g.g_BootSector.SectorsPerCluster : Int)) =
      ((g.g_RootDirectoryEnd + (c - 2) * g.g_BootSector.SectorsPerCluster : Nat) : Int) := by
    push_cast [Nat.cast_sub hc]
    ring
  rw [e]
  have h' : ((g.g_RootDirectoryEnd + (c - 2) * g.g_BootSector.SectorsPerCluster : Nat) : Int)
      < 2 ^ 32 := by exact_mod_cast h
  rw [Int.emod_eq_of_lt (Int.natCast_nonneg _) h', Int.toNat_natCast]

/-- C16: for every geometry with fields in their C ranges and
`BytesPerSector > 0`, with `g_RootDirectoryEnd` as `readRootDirectory` records
it, and every starting cluster that is a `uint16_t`: each sector read that
`readFile` makes for a cluster value `c >= 2` starts at LBA exactly
`g_RootDirectoryEnd + (c - 2) * SectorsPerCluster`, and this value is below
`2 ^ 32` (indeed below `2 ^ 26`), so the 32-bit computation does not wrap. -/
theorem readFile_cluster_lba_exact (g : Globals) (disk : Disk) (ok : Bool) (g' : Globals)
    (fileEntry : DirectoryEntry) (fuel : Nat)
    (ht : g.g_BootSector.WellTyped) (hb : 0 < g.g_BootSector.BytesPerSector)
    (hload : readRootDirectory g disk = some (ok, g'))
    (he : fileEntry.FirstClusterLow < 2 ^ 16) :
    ∀ r ∈ (readFile g' fileEntry disk fuel).state.reads, 2 ≤ r.cluster →
      r.lba = g'.g_RootDirectoryEnd + (r.cluster - 2) * g'.g_BootSector.SectorsPerCluster ∧
        g'.g_RootDirectoryEnd + (r.cluster - 2) * g'.g_BootSector.SectorsPerCluster < 2 ^ 26 ∧
        g'.g_RootDirectoryEnd + (r.cluster - 2) * g'.g_BootSector.SectorsPerCluster < 2 ^ 32 := by
  obtain ⟨heq, hrde, _⟩ := readRootDirectory_eq g disk ht hb
  rw [heq] at hload
  simp only [Option.some.injEq, Prod.mk.injEq] at hload
  obtain ⟨_, hg'⟩ := hload
  have hspc : g'.g_BootSector.SectorsPerCluster < 2 ^ 8 := by
    rw [← hg']; exact ht.2.1
  have hr : g'.g_RootDirectoryEnd < 2 ^ 25 := by
    rw [← hg']; exact hrde
  have hbound : ∀ c, c < 2 ^ 16 →
      g'.g_RootDirectoryEnd + (c - 2) * g'.g_BootSector.SectorsPerCluster < 2 ^ 26 := by
    intro c hc
    have : (c - 2) * g'.g_BootSector.SectorsPerCluster ≤ 2 ^ 16 * 2 ^ 8 :=
      Nat.mul_le_mul (by omega) (by omega)
    omega
  apply readFileLoop_reads_inv g' disk
    (fun r => 2 ≤ r.cluster →
      r.lba = g'.g_RootDirectoryEnd + (r.cluster - 2) * g'.g_BootSector.SectorsPerCluster ∧
        g'.g_RootDirectoryEnd + (r.cluster - 2) * g'.g_BootSector.SectorsPerCluster < 2 ^ 26 ∧
        g'.g_RootDirectoryEnd + (r.cluster - 2) * g'.g_BootSector.SectorsPerCluster < 2 ^ 32)
  · intro dest c hc h2
    have hlt := hbound c hc
    exact ⟨clusterLba_of_ge_two g' c h2 (lt_trans hlt (by norm_num)), hlt,
      lt_trans hlt (by norm_num)⟩
  · rfl
  · exact he
  · intro r hr
    simp [initialState] at hr

/-- On the small image the data region starts at LBA 6; the extraction of
`A       TXT` reads cluster 2 at LBA 6 and cluster 3 at LBA 7. -/
theorem readFile_cluster_lba_exact_witness :
    ∃ g', readRootDirectory (readBootSector {} (smallImage 1)).2 (smallImage 1) =
        some (true, g') ∧ g'.g_RootDirectoryEnd = 6 ∧
      ∀ r ∈ (readFile { g' with g_Fat := smallFat } { FirstClusterLow := 2 }
          (smallImage 1) 2).state.reads,
        2 ≤ r.cluster → r.lba = 6 + (r.cluster - 2) * 1 := by
  have hr : readRootDirectory (readBootSector {} (smallImage 1)).2 (smallImage 1) =
      some (true, { (readBootSector {} (smallImage 1)).2 with
        g_RootDirectoryEnd := 6, g_RootDirectory := smallRootDirectory }) := by
    decide
  have hr2 : readRootDirectory { (readBootSector {} (smallImage 1)).2 with g_Fat := smallFat }
      (smallImage 1) =
      some (true, { (readBootSector {} (smallImage 1)).2 with
        g_Fat := smallFat, g_RootDirectoryEnd := 6, g_RootDirectory := smallRootDirectory }) := by
    decide
  refine ⟨_, hr, rfl, ?_⟩
  intro r hmem h2
  exact (readFile_cluster_lba_exact _ (smallImage 1) true _ { FirstClusterLow := 2 } 2
    (by decide) (by decide) hr2 (by decide) r hmem h2).1

theorem findFileLoop_ne_fault (g : Globals) (name : List Byte) (hn : name.length = 11)
    (n i : Nat) (hb : 32 * (i + n) ≤ g.g_RootDirectory.length) :
    findFileLoop g name i n ≠ .fault := by
  induction n generalizing i with
  | zero =>
    simp only [findFileLoop]
    intro h; cases h
  | succ n ih =>
    simp only [findFileLoop]
    rcases memcmp11_cases g name i hn (by omega) with ⟨he, _⟩ | ⟨he, _⟩
    · simp only [he]
      intro h; cases h
    · simp only [he]
      exact ih (i + 1) (by rw [show i + 1 + n = i + (n + 1) by omega]; exact hb)

theorem rootDirectoryAlloc_eq (g : Globals)
    (ht : g.g_BootSector.WellTyped) (hb : 0 < g.g_BootSector.BytesPerSector) :
    rootDirectoryAlloc g =
      some (ceilDiv (32 * g.g_BootSector.DirEntryCount) g.g_BootSector.BytesPerSector *
        g.g_BootSector.BytesPerSector) := by
  obtain ⟨_, _, hlt⟩ := readRootDirectory_eq g [] ht hb
  obtain ⟨h1, _, h3, h4, h5, h6⟩ := ht
  have hcd := ceilDiv_eq_ite (32 * g.g_BootSector.DirEntryCount) g.g_BootSector.BytesPerSector hb
  have hdiv : 32 * g.g_BootSector.DirEntryCount / g.g_BootSector.BytesPerSector < 2 ^ 21 :=
    lt_of_le_of_lt (Nat.div_le_self _ _) (by omega)
  unfold rootDirectoryAlloc
  simp only [sizeofDirectoryEntry]
  rw [if_neg (by omega), Nat.mod_eq_of_lt (show 32 * g.g_BootSector.DirEntryCount < 2 ^ 32 by omega)]
  have e1 : (if 32 * g.g_BootSector.DirEntryCount % g.g_BootSector.BytesPerSector > 0 then
      (32 * g.g_BootSector.DirEntryCount / g.g_BootSector.BytesPerSector + 1) % 2 ^ 32
      else 32 * g.g_BootSector.DirEntryCount / g.g_BootSector.BytesPerSector) =
      ceilDiv (32 * g.g_BootSector.DirEntryCount) g.g_BootSector.BytesPerSector := by
    rw [hcd]
    split_ifs
    · exact Nat.mod_eq_of_lt (by omega)
    · rfl
  simp only [e1]
  rw [Nat.mod_eq_of_lt (by omega)]

/-- C19: for every boot sector with fields in their C ranges and
`BytesPerSector > 0`, the buffer `readRootDirectory` allocates holds
`sectors * BytesPerSector` bytes, which is at least `32 * DirEntryCount`, so
each entry `i < DirEntryCount` lies wholly inside it; after a successful
`readRootDirectory` the loaded directory fills that buffer, and `findFile`
with an 11-byte name never reads outside it. -/
theorem readRootDirectory_buffer_holds_entries (g : Globals) (disk : Disk)
    (ht : g.g_BootSector.WellTyped) (hb : 0 < g.g_BootSector.BytesPerSector) :
    ∃ n, rootDirectoryAlloc g = some n ∧
      n = ceilDiv (32 * g.g_BootSector.DirEntryCount) g.g_BootSector.BytesPerSector *
        g.g_BootSector.BytesPerSector ∧
      32 * g.g_BootSector.DirEntryCount ≤ n ∧
      (∀ i, i < g.g_BootSector.DirEntryCount → 32 * i + 32 ≤ n) ∧
      ∀ g', readRootDirectory g disk = some (true, g') →
        g'.g_RootDirectory.length = n ∧
        g'.g_BootSector.DirEntryCount = g.g_BootSector.DirEntryCount ∧
        ∀ name : List Byte, name.length = 11 → findFile g' name ≠ .fault := by
  have hge := ceilDiv_mul_ge (32 * g.g_BootSector.DirEntryCount) g.g_BootSector.BytesPerSector hb
  refine ⟨_, rootDirectoryAlloc_eq g ht hb, rfl, hge, fun i hi => by omega, ?_⟩
  intro g' hload
  obtain ⟨heq, _, _⟩ := readRootDirectory_eq g disk ht hb
  rw [heq] at hload
  simp only [Option.some.injEq, Prod.mk.injEq] at hload
  obtain ⟨hok, hg'⟩ := hload
  have hlen := (readSectors_data_of_ok g disk _ _ hok).2
  have hl : g'.g_RootDirectory.length =
      ceilDiv (32 * g.g_BootSector.DirEntryCount) g.g_BootSector.BytesPerSector *
        g.g_BootSector.BytesPerSector := by
    rw [← hg']
    exact hlen.trans (Nat.mul_comm _ _)
  have hd : g'.g_BootSector.DirEntryCount = g.g_BootSector.DirEntryCount := by
    rw [← hg']
  refine ⟨hl, hd, fun name hn => ?_⟩
  unfold findFile
  apply findFileLoop_ne_fault g' name hn
  rw [Nat.zero_add, hd, hl]
  exact hge

/-- On the small image the directory buffer holds 2 sectors of 32 bytes for
the 2 entries, and the lookup of `A       TXT` finds entry 0 inside it. -/
theorem readRootDirectory_buffer_holds_entries_witness :
    ∃ n, rootDirectoryAlloc (readBootSector {} (smallImage 1)).2 = some n ∧ n = 64 ∧
      ∃ g', readRootDirectory (readBootSector {} (smallImage 1)).2 (smallImage 1) =
          some (true, g') ∧ g'.g_RootDirectory.length = n ∧ findFile g' smallName = .found 0 := by
  obtain ⟨n, h1, h2, _, _, h5⟩ := readRootDirectory_buffer_holds_entries
    (readBootSector {} (smallImage 1)).2 (smallImage 1) (by decide) (by decide)
  have hr : readRootDirectory (readBootSector {} (smallImage 1)).2 (smallImage 1) =
      some (true, { (readBootSector {} (smallImage 1)).2 with
        g_RootDirectoryEnd := 6, g_RootDirectory := smallRootDirectory }) := by
    decide
  refine ⟨n, h1, ?_, _, hr, (h5 _ hr).1, by decide⟩
  rw [h2]
  decide

/-! ## FAT fetches and the FAT buffer -/

theorem fatWord_eq_none (fat : List Byte) (k : Nat) (h : fat.length ≤ k + 1) :
    fatWord fat k = none := by
  unfold fatWord
  rw [List.getElem?_eq_none h]
  cases fat[k]? <;> rfl

theorem nextCluster_eq_none (fat : List Byte) (c : Nat) (hc : c < 2 ^ 16)
    (h : fat.length ≤ c * 3 / 2 + 1) : nextCluster fat c = none := by
  have hidx : (c * 3 / 2) % 2 ^ 32 = c * 3 / 2 := Nat.mod_eq_of_lt (by omega)
  unfold nextCluster
  simp only [hidx, fatWord_eq_none fat _ h, Option.map_none']
  split_ifs <;> rfl

theorem readFile_fault_of_fetch_outside (g : Globals) (fileEntry : DirectoryEntry) (disk : Disk)
    (fuel : Nat) (h : nextCluster g.g_Fat fileEntry.FirstClusterLow = none) :
    ∃ s, readFile g fileEntry disk (fuel + 1) = .fault s := by
  unfold readFile
  rw [readFileLoop]
  simp only [initialState, h]
  exact ⟨_, rfl⟩

/-- C20, as stated, fails: the FAT buffer `endMarkerFat` has 6134 bytes, so
`floor(2 * F / 3) = 4089`; no cluster value below 0x0FF8 is at or above that
number, and for every cluster value below 0x0FF8 both fetched bytes lie inside
the buffer and the fetch yields a value. -/
theorem fat_fetch_large_buffer_all_inside :
    endMarkerFat.length = 6134 ∧ 2 * endMarkerFat.length / 3 = 4089 ∧
      (¬ ∃ c, c < 0x0FF8 ∧ 2 * endMarkerFat.length / 3 ≤ c) ∧
      ∀ c, c < 0x0FF8 →
        c * 3 / 2 + 1 < endMarkerFat.length ∧ ∃ v, nextCluster endMarkerFat c = some v := by
  have hlen : endMarkerFat.length = 6134 := List.length_replicate _ _
  refine ⟨hlen, by rw [hlen], ?_, ?_⟩
  · rw [hlen]
    rintro ⟨c, h1, h2⟩
    omega
  · intro c hc
    have h1 : c * 3 / 2 + 1 < endMarkerFat.length := by rw [hlen]; omega
    exact ⟨h1, _, nextCluster_eq_specFatEntry endMarkerFat c (by omega) h1⟩

/-- C20, amended: a FAT buffer of `F` bytes holds `floor(2 * F / 3)` whole
12-bit entries. For every cluster index `c` (a `uint16_t`) below that number
the two bytes `readFile` fetches, at offsets `floor(3 * c / 2)` and
`floor(3 * c / 2) + 1`, lie inside the buffer and the fetch yields a value. For
every `c` from that number on the second fetched byte lies outside the buffer,
the code makes no check, and `readFile` started at `c` runs into the
out-of-bounds load. A cluster value below 0x0FF8 whose fetch lies outside the
buffer exists exactly when the buffer holds fewer than 0x0FF8 entries. -/
theorem fat_fetch_inside_iff_entry_held (fat : List Byte) :
    (∀ c, c < 2 ^ 16 → c < 2 * fat.length / 3 →
        c * 3 / 2 < fat.length ∧ c * 3 / 2 + 1 < fat.length ∧
          ∃ v, nextCluster fat c = some v) ∧
      (∀ c, c < 2 ^ 16 → 2 * fat.length / 3 ≤ c →
        fat.length ≤ c * 3 / 2 + 1 ∧ nextCluster fat c = none ∧
          ∀ (g : Globals) (fileEntry : DirectoryEntry) (disk : Disk) (fuel : Nat),
            g.g_Fat = fat → fileEntry.FirstClusterLow = c →
              ∃ s, readFile g fileEntry disk (fuel + 1) = .fault s) ∧
      ((∃ c, c < 0x0FF8 ∧ 2 * fat.length / 3 ≤ c ∧ fat.length ≤ c * 3 / 2 + 1 ∧
          nextCluster fat c = none) ↔ 2 * fat.length / 3 < 0x0FF8) ∧
      ((∃ c, c < 0x0FF8 ∧ nextCluster fat c = none) ↔ 2 * fat.length / 3 < 0x0FF8) := by
  have hin : ∀ c, c < 2 ^ 16 → c < 2 * fat.length / 3 →
      c * 3 / 2 + 1 < fat.length ∧ ∃ v, nextCluster fat c = some v := by
    intro c hc hlt
    have h1 : c * 3 / 2 + 1 < fat.length := by omega
    exact ⟨h1, _, nextCluster_eq_specFatEntry fat c hc h1⟩
  have hsmall : 2 * fat.length / 3 < 0x0FF8 →
      ∃ c, c < 0x0FF8 ∧ 2 * fat.length / 3 ≤ c ∧ fat.length ≤ c * 3 / 2 + 1 ∧
        nextCluster fat c = none := by
    intro hs
    have h1 : fat.length ≤ (2 * fat.length / 3) * 3 / 2 + 1 := by omega
    exact ⟨2 * fat.length / 3, hs, le_refl _, h1, nextCluster_eq_none fat _ (by omega) h1⟩
  refine ⟨?_, ?_, ⟨?_, hsmall⟩, ⟨?_, ?_⟩⟩
  · intro c hc hlt
    obtain ⟨h1, h2⟩ := hin c hc hlt
    exact ⟨by omega, h1, h2⟩
  · intro c hc hge
    have h1 : fat.length ≤ c * 3 / 2 + 1 := by omega
    have h2 := nextCluster_eq_none fat c hc h1
    refine ⟨h1, h2, ?_⟩
    intro g fileEntry disk fuel hg he
    apply readFile_fault_of_fetch_outside
    rw [hg, he]
    exact h2
  · rintro ⟨c, h1, h2, _, _⟩
    omega
  · rintro ⟨c, h1, h2⟩
    by_contra hbig
    obtain ⟨_, v, hv⟩ := hin c (by omega) (by omega)
    rw [hv] at h2
    cases h2
  · intro hs
    obtain ⟨c, h1, _, _, h4⟩ := hsmall hs
    exact ⟨c, h1, h4⟩

/-- The example FAT has 15 bytes, so 10 entries: the fetch for cluster 9 reads
bytes 13 and 14 and yields 0xFFF; the fetch for cluster 10 would read bytes 15
and 16, and `readFile` started there faults. -/
theorem fat_fetch_inside_iff_entry_held_witness :
    (13 < exampleFat.length ∧ 14 < exampleFat.length ∧
        ∃ v, nextCluster exampleFat 9 = some v) ∧
      (exampleFat.length ≤ 16 ∧ nextCluster exampleFat 10 = none ∧
        ∃ s, readFile exampleGlobals { FirstClusterLow := 10 } exampleDisk 1 = .fault s) :=
  ⟨(fat_fetch_inside_iff_entry_held exampleFat).1 9 (by decide) (by decide),
    have h := (fat_fetch_inside_iff_entry_held exampleFat).2.1 10 (by decide) (by decide)
    ⟨h.1, h.2.1, h.2.2 exampleGlobals { FirstClusterLow := 10 } exampleDisk 0 rfl rfl⟩⟩

/-! ## Cyclic chains -/

theorem mem_chainReads (g : Globals) (disk : Disk) (chain : List Nat) :
    ∀ dest r, r ∈ chainReads g disk dest chain →
      ∃ d c, c ∈ chain ∧ r = clusterRead g disk d c := by
  induction chain with
  | nil => intro dest r hr; simp [chainReads] at hr
  | cons c cs ih =>
    intro dest r hr
    simp only [chainReads, List.mem_cons] at hr
    rcases hr with h | h
    · exact ⟨dest, c, by simp, h⟩
    · obtain ⟨d, c', hc', hr'⟩ := ih _ r h
      exact ⟨d, c', by simp [hc'], hr'⟩

theorem readFileLoop_self_loop (g : Globals) (disk : Disk) (c : Nat)
    (hn : nextCluster g.g_Fat c = some c) (hc : c < 0x0FF8)
    (hr : clusterReadOk g disk c = true) :
    ∀ (n : Nat) (s : WalkState), s.ok = true → s.currentCluster = c →
      readFileLoop g disk n s =
        .running ⟨true, c,
          s.outputBuffer +
            n * (g.g_BootSector.SectorsPerCluster * g.g_BootSector.BytesPerSector),
          s.reads ++ chainReads g disk s.outputBuffer (List.replicate n c)⟩ := by
  intro n
  induction n with
  | zero =>
    intro s hok hcur
    simp only [readFileLoop, List.replicate_zero, chainReads, List.append_nil, Nat.zero_mul,
      Nat.add_zero]
    rw [← hok, ← hcur]
  | succ n ih =>
    intro s hok hcur
    rw [readFileLoop, readCluster_of_ok g disk s hok, hcur]
    simp only [hn, hr, Bool.true_and, hc, decide_True, if_true]
    rw [ih ⟨true, c,
      s.outputBuffer + g.g_BootSector.SectorsPerCluster * g.g_BootSector.BytesPerSector,
      s.reads ++ [clusterRead g disk s.outputBuffer c]⟩ rfl rfl]
    simp only [List.replicate_succ, chainReads, List.append_assoc, List.singleton_append]
    congr 2
    ring

/-- C17: the walk has no cycle or step-count guard. There is a FAT with a
cycle below 0x0FF8 (cluster 2 linked to itself) and a disk image on which
every sector read succeeds such that `readFile` does not terminate: for every
number `n` of iterations the loop is still running after `n` cluster reads,
all of them successful reads of cluster 2. -/
theorem readFile_cycle_never_returns :
    ∃ (g : Globals) (fileEntry : DirectoryEntry) (disk : Disk),
      fileEntry.FirstClusterLow < 0x0FF8 ∧
      nextCluster g.g_Fat fileEntry.FirstClusterLow = some fileEntry.FirstClusterLow ∧
      ∀ n, ∃ s, readFile g fileEntry disk n = .running s ∧ s.reads.length = n ∧
        ∀ r ∈ s.reads, r.ok = true ∧ r.cluster = fileEntry.FirstClusterLow := by
  refine ⟨cycleGlobals, { FirstClusterLow := 2 }, exampleDisk, by decide, by decide, ?_⟩
  intro n
  have hrun := readFileLoop_self_loop cycleGlobals exampleDisk 2 (by decide) (by decide)
    (by decide) n (initialState { FirstClusterLow := 2 }) rfl rfl
  refine ⟨_, hrun, ?_, ?_⟩
  · simp [initialState, chainReads_length]
  · intro r hmem
    simp only [initialState, List.nil_append] at hmem
    obtain ⟨d, c, hc, hre⟩ := mem_chainReads _ _ _ _ r hmem
    have hc2 : c = 2 := List.eq_of_mem_replicate hc
    subst hc2
    rw [hre]
    exact ⟨(by decide : clusterReadOk cycleGlobals exampleDisk 2 = true), rfl⟩

/-! ## Bytes written along a chain -/

theorem readFileLoop_reads_prefix (g : Globals) (disk : Disk) (m : Nat) (hm : 0x0FF8 ≤ m) :
    ∀ (fuel : Nat) (cs : List Nat) (c : Nat) (s : WalkState), s.ok = true →
      s.currentCluster = c → FatChain g.g_Fat (c :: cs) m →
      ∃ k, k ≤ cs.length + 1 ∧
        (readFileLoop g disk fuel s).state.reads =
          s.reads ++ (chainReads g disk s.outputBuffer (c :: cs)).take k := by
  intro fuel
  induction fuel with
  | zero =>
    intro cs c s _ _ _
    exact ⟨0, by omega, by simp [readFileLoop, Outcome.state]⟩
  | succ fuel ih =>
    intro cs c s hok hcur hl
    rw [readFileLoop, readCluster_of_ok g disk s hok, hcur]
    cases cs with
    | nil =>
      have hn : nextCluster g.g_Fat c = some m := hl
      have hcond : ¬ (m < 0x0FF8) := by omega
      simp only [hn, hcond, decide_False, Bool.and_false]
      exact ⟨1, by simp, by simp [Outcome.state, chainReads]⟩
    | cons c' cs' =>
      have hn : nextCluster g.g_Fat c = some c' := hl.1
      simp only [hn]
      split_ifs with hcond
      · simp only [Bool.and_eq_true] at hcond
        obtain ⟨k, hk, hreads⟩ := ih cs' c'
          ⟨clusterReadOk g disk c, c',
            s.outputBuffer + g.g_BootSector.SectorsPerCluster * g.g_BootSector.BytesPerSector,
            s.reads ++ [clusterRead g disk s.outputBuffer c]⟩ hcond.1 rfl hl.2
        refine ⟨k + 1, by simp only [List.length_cons]; omega, ?_⟩
        rw [hreads]
        simp [chainReads]
      · exact ⟨1, by simp, by simp [Outcome.state, chainReads]⟩

theorem fread_data_length_le (disk : Disk) (pos size nmemb : Nat) :
    (fread disk pos size nmemb).1.length ≤ size * nmemb := by
  unfold fread
  split_ifs
  · simp
  · simp only [List.length_take]
    omega

theorem clusterRead_data_length_le (g : Globals) (disk : Disk) (dest c : Nat) :
    (clusterRead g disk dest c).data.length ≤
      g.g_BootSector.SectorsPerCluster * g.g_BootSector.BytesPerSector := by
  have := fread_data_length_le disk ((clusterLba g c * g.g_BootSector.BytesPerSector) % 2 ^ 32)
    g.g_BootSector.BytesPerSector g.g_BootSector.SectorsPerCluster
  exact le_trans this (le_of_eq (Nat.mul_comm _ _))

theorem chainReads_end_le (g : Globals) (disk : Disk) (chain : List Nat) :
    ∀ dest r, r ∈ chainReads g disk dest chain →
      r.dest + r.data.length ≤
        dest + chain.length *
          (g.g_BootSector.SectorsPerCluster * g.g_BootSector.BytesPerSector) := by
  induction chain with
  | nil => intro dest r hr; simp [chainReads] at hr
  | cons c cs ih =>
    intro dest r hr
    simp only [chainReads, List.mem_cons] at hr
    have e : (cs.length + 1) *
        (g.g_BootSector.SectorsPerCluster * g.g_BootSector.BytesPerSector) =
        g.g_BootSector.SectorsPerCluster * g.g_BootSector.BytesPerSector +
          cs.length * (g.g_BootSector.SectorsPerCluster * g.g_BootSector.BytesPerSector) := by
      ring
    rw [List.length_cons, e]
    rcases hr with h | h
    · have := clusterRead_data_length_le g disk dest c
      rw [h]
      show dest + (clusterRead g disk dest c).data.length ≤ _
      omega
    · have := ih _ r h
      omega

theorem bytesWritten_le (g : Globals) (disk : Disk) (reads : List SectorRead)
    (h : ∀ r ∈ reads, ∃ d c, r = clusterRead g disk d c) :
    bytesWritten reads ≤
      reads.length * (g.g_BootSector.SectorsPerCluster * g.g_BootSector.BytesPerSector) := by
  induction reads with
  | nil => simp [bytesWritten]
  | cons r rs ih =>
    have hr := ih (fun x hx => h x (List.mem_cons_of_mem _ hx))
    obtain ⟨d, c, hrc⟩ := h r (by simp)
    have hle := clusterRead_data_length_le g disk d c
    rw [← hrc] at hle
    unfold bytesWritten at hr ⊢
    simp only [List.map_cons, List.sum_cons, List.length_cons]
    have e : (rs.length + 1) *
        (g.g_BootSector.SectorsPerCluster * g.g_BootSector.BytesPerSector) =
        g.g_BootSector.SectorsPerCluster * g.g_BootSector.BytesPerSector +
          rs.length * (g.g_BootSector.SectorsPerCluster * g.g_BootSector.BytesPerSector) := by
      ring
    rw [e]
    omega

theorem readFile_writes_within_chain (g : Globals) (fileEntry : DirectoryEntry) (disk : Disk)
    (chain : List Nat) (m fuel : Nat)
    (hstart : chain.head? = some fileEntry.FirstClusterLow)
    (hlinks : FatChain g.g_Fat chain m) (hend : 0x0FF8 ≤ m) :
    bytesWritten (readFile g fileEntry disk fuel).state.reads ≤
        chain.length * (g.g_BootSector.SectorsPerCluster * g.g_BootSector.BytesPerSector) ∧
      ∀ r ∈ (readFile g fileEntry disk fuel).state.reads,
        r.dest + r.data.length ≤
          chain.length * (g.g_BootSector.SectorsPerCluster * g.g_BootSector.BytesPerSector) := by
  cases chain with
  | nil => exact absurd hlinks (by simp [FatChain])
  | cons c cs =>
    have hc : fileEntry.FirstClusterLow = c := by simpa using hstart.symm
    obtain ⟨k, hk, hreads⟩ := readFileLoop_reads_prefix g disk m hend fuel cs c
      (initialState fileEntry) rfl hc hlinks
    unfold readFile
    rw [hreads]
    simp only [initialState, List.nil_append]
    constructor
    · have h1 := bytesWritten_le g disk ((chainReads g disk 0 (c :: cs)).take k)
        (fun r hr => by
          obtain ⟨d, x, _, hx⟩ := mem_chainReads g disk _ _ r (List.mem_of_mem_take hr)
          exact ⟨d, x, hx⟩)
      have h2 : ((chainReads g disk 0 (c :: cs)).take k).length ≤ (c :: cs).length := by
        rw [List.length_take, chainReads_length]
        omega
      exact le_trans h1 (Nat.mul_le_mul_right _ h2)
    · intro r hr
      have := chainReads_end_le g disk (c :: cs) 0 r (List.mem_of_mem_take hr)
      omega

theorem fatChain_suffix (fat : List Byte) (m c : Nat) (l2 : List Nat) :
    ∀ l1 : List Nat, FatChain fat (l1 ++ c :: l2) m → FatChain fat (c :: l2) m := by
  intro l1
  induction l1 with
  | nil => intro h; exact h
  | cons a l1 ih =>
    intro h
    cases l1 with
    | nil => exact h.2
    | cons b l1' => exact ih h.2

theorem fatChain_deterministic (fat : List Byte) (m1 m2 : Nat)
    (h1 : 0x0FF8 ≤ m1) (h2 : 0x0FF8 ≤ m2) :
    ∀ (l1 l2 : List Nat) (c : Nat), FatChain fat (c :: l1) m1 → FatChain fat (c :: l2) m2 →
      (∀ x ∈ l1, x < 0x0FF8) → (∀ x ∈ l2, x < 0x0FF8) → l1 = l2 := by
  intro l1
  induction l1 with
  | nil =>
    intro l2 c hc1 hc2 _ hl2
    cases l2 with
    | nil => rfl
    | cons b l2' =>
      have e1 : nextCluster fat c = some m1 := hc1
      have e2 : nextCluster fat c = some b := hc2.1
      rw [e1] at e2
      have hb := hl2 b (by simp)
      simp only [Option.some.injEq] at e2
      omega
  | cons a l1' ih =>
    intro l2 c hc1 hc2 hl1 hl2
    have e1 : nextCluster fat c = some a := hc1.1
    cases l2 with
    | nil =>
      have e2 : nextCluster fat c = some m2 := hc2
      rw [e1] at e2
      have ha := hl1 a (by simp)
      simp only [Option.some.injEq] at e2
      omega
    | cons b l2' =>
      have e2 : nextCluster fat c = some b := hc2.1
      rw [e1] at e2
      simp only [Option.some.injEq] at e2
      subst e2
      rw [ih l2' a hc1.2 hc2.2 (fun x hx => hl1 x (by simp [hx]))
        (fun x hx => hl2 x (by simp [hx]))]

theorem fatChain_nodup (fat : List Byte) (m : Nat) (hm : 0x0FF8 ≤ m) :
    ∀ (cs : List Nat) (c : Nat), FatChain fat (c :: cs) m → (∀ x ∈ cs, x < 0x0FF8) →
      (c :: cs).Nodup := by
  intro cs
  induction cs with
  | nil => intro c _ _; simp
  | cons c' cs' ih =>
    intro c hl hlt
    rw [List.nodup_cons]
    refine ⟨?_, ih c' hl.2 (fun x hx => hlt x (by simp [hx]))⟩
    intro hmem
    obtain ⟨l1, l2, hsplit⟩ := List.append_of_mem hmem
    rw [hsplit] at hl hlt
    have hsuf : FatChain fat (c :: l2) m := fatChain_suffix fat m c l2 (c :: l1) hl
    have heq := fatChain_deterministic fat m m hm hm (l1 ++ c :: l2) l2 c hl hsuf hlt
      (fun x hx => hlt x (by simp [hx]))
    have := congrArg List.length heq
    simp only [List.length_append, List.length_cons] at this
    omega

theorem length_le_of_nodup_of_lt (l : List Nat) (N : Nat) (hn : l.Nodup)
    (hlt : ∀ x ∈ l, x < N) : l.length ≤ N := by
  have hsub : l.toFinset ⊆ Finset.range N := by
    intro x hx
    rw [List.mem_toFinset] at hx
    exact Finset.mem_range.2 (hlt x hx)
  have := Finset.card_le_card hsub
  rw [List.toFinset_card_of_nodup hn, Finset.card_range] at this
  exact this

theorem fatChain_length_le (fat : List Byte) (m : Nat) (hm : 0x0FF8 ≤ m) (chain : List Nat)
    (hl : FatChain fat chain m) (hlt : ∀ x ∈ chain.tail, x < 0x0FF8) :
    chain.length ≤ 0x0FF9 := by
  cases chain with
  | nil => simp
  | cons c cs =>
    have hnd := fatChain_nodup fat m hm cs c hl hlt
    rw [List.nodup_cons] at hnd
    have := length_le_of_nodup_of_lt cs 0x0FF8 hnd.2 hlt
    simp only [List.length_cons]
    omega

/-- C18: for every geometry with `SectorsPerCluster = 1` and
`0 < BytesPerSector` (a `uint16_t`) and every directory entry whose cluster
chain holds `max(1, ceil(Size / BytesPerSector))` clusters, the buffer `main`
allocates has capacity `Size + BytesPerSector` (the 32-bit sum does not wrap),
the total number of bytes `readFile` writes is at most that, and every read is
stored inside the buffer, however the run ends. -/
theorem readFile_fits_main_buffer (g : Globals) (fileEntry : DirectoryEntry) (disk : Disk)
    (chain : List Nat) (m fuel : Nat)
    (hspc : g.g_BootSector.SectorsPerCluster = 1)
    (hb : 0 < g.g_BootSector.BytesPerSector) (hb16 : g.g_BootSector.BytesPerSector < 2 ^ 16)
    (hstart : chain.head? = some fileEntry.FirstClusterLow)
    (hlinks : FatChain g.g_Fat chain m)
    (htail : ∀ x ∈ chain.tail, x < 0x0FF8) (hend : 0x0FF8 ≤ m)
    (hlen : chain.length = max 1 (ceilDiv fileEntry.Size g.g_BootSector.BytesPerSector)) :
    outputCapacity g fileEntry = fileEntry.Size + g.g_BootSector.BytesPerSector ∧
      bytesWritten (readFile g fileEntry disk fuel).state.reads ≤
        fileEntry.Size + g.g_BootSector.BytesPerSector ∧
      ∀ r ∈ (readFile g fileEntry disk fuel).state.reads,
        r.dest + r.data.length ≤ outputCapacity g fileEntry := by
  obtain ⟨hbytes, hin⟩ := readFile_writes_within_chain g fileEntry disk chain m fuel hstart
    hlinks hend
  have hL := fatChain_length_le g.g_Fat m hend chain hlinks htail
  have hge := ceilDiv_mul_ge fileEntry.Size g.g_BootSector.BytesPerSector hb
  have hlt := ceilDiv_mul_lt fileEntry.Size g.g_BootSector.BytesPerSector hb
  rw [hspc, Nat.one_mul] at hbytes hin
  have hq : ceilDiv fileEntry.Size g.g_BootSector.BytesPerSector ≤ chain.length := by
    rw [hlen]; exact le_max_right _ _
  have h1 : ceilDiv fileEntry.Size g.g_BootSector.BytesPerSector * g.g_BootSector.BytesPerSector
      ≤ 0x0FF9 * g.g_BootSector.BytesPerSector :=
    Nat.mul_le_mul_right _ (le_trans hq hL)
  have hcap : outputCapacity g fileEntry = fileEntry.Size + g.g_BootSector.BytesPerSector := by
    unfold outputCapacity
    exact Nat.mod_eq_of_lt (by omega)
  have hfit : chain.length * g.g_BootSector.BytesPerSector ≤
      fileEntry.Size + g.g_BootSector.BytesPerSector := by
    rcases Nat.lt_or_ge (ceilDiv fileEntry.Size g.g_BootSector.BytesPerSector) 1 with h | h
    · have : chain.length = 1 := by rw [hlen]; exact max_eq_left (by omega)
      rw [this]; omega
    · have : chain.length = ceilDiv fileEntry.Size g.g_BootSector.BytesPerSector := by
        rw [hlen]; exact max_eq_right h
      rw [this]; omega
  refine ⟨hcap, le_trans hbytes hfit, fun r hr => ?_⟩
  rw [hcap]
  exact le_trans (hin r hr) hfit

/-- With two-byte sectors and one sector per cluster, a file of 3 bytes at the
chain 5 -> 9 of the example FAT gets a buffer of 5 bytes; `readFile` writes 4
bytes. -/
theorem readFile_fits_main_buffer_witness :
    outputCapacity singleSectorGlobals { FirstClusterLow := 5, Size := 3 } = 5 ∧
      bytesWritten (readFile singleSectorGlobals { FirstClusterLow := 5, Size := 3 }
        exampleDisk 2).state.reads = 4 := by
  have h := readFile_fits_main_buffer singleSectorGlobals
    { FirstClusterLow := 5, Size := 3 } exampleDisk [5, 9] 0xFFF 2 rfl (by decide) (by decide)
    rfl ⟨by decide, show nextCluster exampleFat 9 = some 0xFFF by decide⟩ (by decide)
    (by decide) (by decide)
  exact ⟨h.1, by decide⟩

/-! ## Whole clusters and the sector-rounded size -/

theorem bytesWritten_chainReads_of_ok (g : Globals) (disk : Disk) (chain : List Nat)
    (hok : ∀ c ∈ chain, clusterReadOk g disk c = true) :
    ∀ dest, bytesWritten (chainReads g disk dest chain) =
      chain.length * (g.g_BootSector.SectorsPerCluster * g.g_BootSector.BytesPerSector) := by
  induction chain with
  | nil => intro dest; simp [chainReads, bytesWritten]
  | cons c cs ih =>
    intro dest
    have h1 := ih (fun x hx => hok x (List.mem_cons_of_mem _ hx))
      (dest + g.g_BootSector.SectorsPerCluster * g.g_BootSector.BytesPerSector)
    have h2 := clusterData_length g disk c (hok c (by simp))
    unfold bytesWritten at h1 ⊢
    simp only [chainReads, List.map_cons, List.sum_cons, List.length_cons, h1, clusterRead_data,
      h2]
    ring

/-- With two-byte sectors and two sectors per cluster, a file of 1 byte in the
single cluster 4 (so `ceil(1 / 4) = 1` cluster) is extracted successfully with
4 bytes written, more than `roundUp(1, 2) = 2` and more than the 3 bytes
`main` allocates for it. -/
theorem readFile_exceeds_sector_rounded_size :
    0 < exampleGlobals.g_BootSector.BytesPerSector ∧
      0 < exampleGlobals.g_BootSector.SectorsPerCluster ∧
      nextCluster exampleGlobals.g_Fat 4 = some 0xFFF ∧
      [4].length = ceilDiv 1 (exampleGlobals.g_BootSector.SectorsPerCluster *
        exampleGlobals.g_BootSector.BytesPerSector) ∧
      readFile exampleGlobals { FirstClusterLow := 4, Size := 1 } exampleDisk 1 =
        .returned true ⟨true, 0xFFF, 4, [⟨4, 6, 0, [12, 13, 14, 15], true⟩]⟩ ∧
      bytesWritten (readFile exampleGlobals { FirstClusterLow := 4, Size := 1 }
        exampleDisk 1).state.reads = 4 ∧
      roundUp 1 exampleGlobals.g_BootSector.BytesPerSector = 2 ∧
      outputCapacity exampleGlobals { FirstClusterLow := 4, Size := 1 } = 3 := by
  decide

/-- What `readFile` writes along a chain: for every geometry with
`BytesPerSector > 0` and `SectorsPerCluster > 0` and every directory entry
whose cluster chain holds exactly
`ceil(Size / (SectorsPerCluster * BytesPerSector))` clusters, `readFile` writes
at most `roundUp(Size, SectorsPerCluster * BytesPerSector)` bytes, the size
rounded up to whole clusters; when all cluster reads succeed it returns
success and writes exactly that many bytes. -/
theorem readFile_writes_cluster_rounded_size (g : Globals) (fileEntry : DirectoryEntry)
    (disk : Disk) (chain : List Nat) (m fuel : Nat)
    (hb : 0 < g.g_BootSector.BytesPerSector) (hs : 0 < g.g_BootSector.SectorsPerCluster)
    (hstart : chain.head? = some fileEntry.FirstClusterLow)
    (hlinks : FatChain g.g_Fat chain m)
    (htail : ∀ x ∈ chain.tail, x < 0x0FF8) (hend : 0x0FF8 ≤ m)
    (hlen : chain.length = ceilDiv fileEntry.Size
      (g.g_BootSector.SectorsPerCluster * g.g_BootSector.BytesPerSector)) :
    fileEntry.Size ≤ roundUp fileEntry.Size
        (g.g_BootSector.SectorsPerCluster * g.g_BootSector.BytesPerSector) ∧
      bytesWritten (readFile g fileEntry disk fuel).state.reads ≤
        roundUp fileEntry.Size
          (g.g_BootSector.SectorsPerCluster * g.g_BootSector.BytesPerSector) ∧
      (∀ r ∈ (readFile g fileEntry disk fuel).state.reads,
        r.dest + r.data.length ≤ roundUp fileEntry.Size
          (g.g_BootSector.SectorsPerCluster * g.g_BootSector.BytesPerSector)) ∧
      ((∀ c ∈ chain, clusterReadOk g disk c = true) →
        ∃ s, readFile g fileEntry disk (fuel + chain.length) = .returned true s ∧
          bytesWritten s.reads = roundUp fileEntry.Size
            (g.g_BootSector.SectorsPerCluster * g.g_BootSector.BytesPerSector)) := by
  obtain ⟨hbytes, hin⟩ := readFile_writes_within_chain g fileEntry disk chain m fuel hstart
    hlinks hend
  have hpos : 0 < g.g_BootSector.SectorsPerCluster * g.g_BootSector.BytesPerSector :=
    Nat.mul_pos hs hb
  unfold roundUp
  rw [← hlen]
  refine ⟨?_, hbytes, hin, ?_⟩
  · rw [hlen]
    exact ceilDiv_mul_ge _ _ hpos
  · intro hok
    cases chain with
    | nil => exact absurd hlinks (by simp [FatChain])
    | cons c cs =>
      have hc : fileEntry.FirstClusterLow = c := by simpa using hstart.symm
      have hw := walks_of_fatChain g disk m hend cs c hlinks htail hok
      have hrun := readFileLoop_walk g disk m true fuel cs c (initialState fileEntry) rfl hc hw
      refine ⟨_, hrun, ?_⟩
      simp only [initialState, List.nil_append]
      exact bytesWritten_chainReads_of_ok g disk (c :: cs) hok 0

/-- With two-byte sectors and two sectors per cluster, a file of 5 bytes at
the chain 5 -> 9 of the example FAT (`ceil(5 / 4) = 2` clusters) is extracted
with exactly `roundUp(5, 4) = 8` bytes written. -/
theorem readFile_writes_cluster_rounded_size_witness :
    ∃ s, readFile exampleGlobals { FirstClusterLow := 5, Size := 5 } exampleDisk 2 =
        .returned true s ∧ bytesWritten s.reads = 8 := by
  obtain ⟨s, h1, h2⟩ := (readFile_writes_cluster_rounded_size exampleGlobals
    { FirstClusterLow := 5, Size := 5 } exampleDisk [5, 9] 0xFFF 0 (by decide) (by decide) rfl
    ⟨by decide, show nextCluster exampleFat 9 = some 0xFFF by decide⟩ (by decide) (by decide)
    (by decide)).2.2.2 (by decide)
  exact ⟨s, h1, h2⟩

/-! ## Zero geometry -/

theorem clusterReadOk_of_zero_cluster (g : Globals) (disk : Disk) (c : Nat)
    (h : g.g_BootSector.SectorsPerCluster = 0) : clusterReadOk g disk c = true := by
  unfold clusterReadOk clusterRead
  simp only []
  rw [readSectors_ok_iff]
  exact Or.inl h

theorem main_of_readFat_fails (disk : Disk) (name : List Byte) (fuel : Nat) (g2 : Globals)
    (h1 : (readBootSector {} disk).1 = true)
    (h2 : readFat (readBootSector {} disk).2 disk = some (false, g2)) :
    main disk name fuel = .exit (-3) := by
  unfold main
  simp only [h1, h2]
  rfl

/-- C11, as stated, fails: on the small image with `SectorsPerCluster = 0`
the extraction of `A       TXT` is reported as successful (exit code 0); on an
image of 62 zero bytes (`BytesPerSector = 0`, `SectorsPerFat = 0`) `readFat`
succeeds and `readRootDirectory` divides by zero. -/
theorem main_zero_geometry_not_reported :
    ((readBootSector {} (smallImage 0)).2.g_BootSector.SectorsPerCluster = 0 ∧
        main (smallImage 0) smallName 2 = .exit 0) ∧
      ((readBootSector {} (List.replicate 62 0)).2.g_BootSector.BytesPerSector = 0 ∧
        main (List.replicate 62 0) smallName 0 = .divisionByZero) := by
  decide

/-- C11, amended: the code does not validate the geometry. For every disk
image whose boot sector has `BytesPerSector = 0` and `SectorsPerFat > 0`,
`readFat` fails and `main` ends with the reported error -3, before the
root-directory size computation and before any extraction. With
`SectorsPerCluster = 0` every cluster read is a read of zero sectors, which
succeeds: for every chain in the FAT that reaches an end-of-chain marker,
`readFile` returns success having written nothing. -/
theorem zero_geometry_behaviour :
    (∀ (disk : Disk) (name : List Byte) (fuel : Nat), 62 ≤ disk.length →
        (readBootSector {} disk).2.g_BootSector.BytesPerSector = 0 →
        0 < (readBootSector {} disk).2.g_BootSector.SectorsPerFat →
        main disk name fuel = .exit (-3)) ∧
      (∀ (g : Globals) (fileEntry : DirectoryEntry) (disk : Disk) (chain : List Nat)
          (m extra : Nat),
        g.g_BootSector.SectorsPerCluster = 0 →
        chain.head? = some fileEntry.FirstClusterLow → FatChain g.g_Fat chain m →
        (∀ x ∈ chain.tail, x < 0x0FF8) → 0x0FF8 ≤ m →
        ∃ s, readFile g fileEntry disk (extra + chain.length) = .returned true s ∧
          s.reads.length = chain.length ∧ bytesWritten s.reads = 0) := by
  constructor
  · intro disk name fuel hlen hbps hspf
    have h1 := (readBootSector_flag {} disk).2 hlen
    have hov : (readBootSector {} disk).2.g_BootSector.SectorsPerFat *
        (readBootSector {} disk).2.g_BootSector.BytesPerSector < 2 ^ 31 := by
      rw [hbps]; norm_num
    have h2 := readFat_of_no_overflow (readBootSector {} disk).2 disk hov
    have hfail : (readSectors (readBootSector {} disk).2 disk
        (readBootSector {} disk).2.g_BootSector.ReservedSectors
        (readBootSector {} disk).2.g_BootSector.SectorsPerFat).1 = false := by
      rw [← Bool.not_eq_true, readSectors_ok_iff]
      omega
    rw [hfail] at h2
    exact main_of_readFat_fails disk name fuel _ h1 h2
  · intro g fileEntry disk chain m extra hspc hstart hlinks htail hend
    cases chain with
    | nil => exact absurd hlinks (by simp [FatChain])
    | cons c cs =>
      have hc : fileEntry.FirstClusterLow = c := by simpa using hstart.symm
      have hok : ∀ x ∈ c :: cs, clusterReadOk g disk x = true :=
        fun x _ => clusterReadOk_of_zero_cluster g disk x hspc
      have hw := walks_of_fatChain g disk m hend cs c hlinks htail hok
      have hrun := readFileLoop_walk g disk m true extra cs c (initialState fileEntry) rfl hc hw
      refine ⟨_, hrun, ?_, ?_⟩
      · simp [initialState, chainReads_length]
      · simp only [initialState, List.nil_append]
        rw [bytesWritten_chainReads_of_ok g disk (c :: cs) hok 0, hspc]
        simp

/-- An image of 62 bytes with `BytesPerSector = 0` and `SectorsPerFat = 1`
ends in the reported error -3; with `SectorsPerCluster = 0` the walk 5 -> 9 of
the example FAT returns success with two reads and no byte written. -/
theorem zero_geometry_behaviour_witness :
    main zeroSectorImage smallName 0 = .exit (-3) ∧
      ∃ s, readFile zeroClusterGlobals { FirstClusterLow := 5 } exampleDisk 2 =
        .returned true s ∧ s.reads.length = 2 ∧ bytesWritten s.reads = 0 :=
  ⟨zero_geometry_behaviour.1 zeroSectorImage smallName 0 (by decide) (by decide) (by decide),
    zero_geometry_behaviour.2 zeroClusterGlobals { FirstClusterLow := 5 } exampleDisk [5, 9]
      0xFFF 0 rfl rfl ⟨by decide, show nextCluster exampleFat 9 = some 0xFFF by decide⟩
      (by decide) (by decide)⟩

/-- C12, the code at the failing input: on a well-formed image with 32-byte
sectors and 2 sectors per cluster, the file `A       TXT` has 1 byte in the
single cluster 2 (`ceil(1 / 64) = 1` cluster). `readFile` returns success after
writing the 64 bytes of the cluster, more than `roundUp(1, 32) = 32`; `main`
has allocated `Size + BytesPerSector = 33` bytes for it, so the run of `main`
ends in a store past the end of its output buffer. -/
theorem main_overruns_output_buffer :
    (readBootSector {} clusterPairImage).2.g_BootSector.BytesPerSector = 32 ∧
      (readBootSector {} clusterPairImage).2.g_BootSector.SectorsPerCluster = 2 ∧
      readFat (readBootSector {} clusterPairImage).2 clusterPairImage =
        some (true, { (readBootSector {} clusterPairImage).2 with g_Fat := clusterPairFat }) ∧
      readRootDirectory { (readBootSector {} clusterPairImage).2 with g_Fat := clusterPairFat }
        clusterPairImage = some (true, clusterPairGlobals) ∧
      findFile clusterPairGlobals smallName = .found 0 ∧
      (directoryEntryAt clusterPairGlobals 0).Size = 1 ∧
      (directoryEntryAt clusterPairGlobals 0).FirstClusterLow = 2 ∧
      nextCluster clusterPairGlobals.g_Fat 2 = some 0xFFF ∧
      [2].length = ceilDiv 1 (2 * 32) ∧
      readFile clusterPairGlobals (directoryEntryAt clusterPairGlobals 0) clusterPairImage 1 =
        .returned true ⟨true, 0xFFF, 64, [⟨2, 6, 0, List.replicate 64 0x61, true⟩]⟩ ∧
      bytesWritten (readFile clusterPairGlobals (directoryEntryAt clusterPairGlobals 0)
        clusterPairImage 1).state.reads = 64 ∧
      roundUp 1 32 = 32 ∧
      outputCapacity clusterPairGlobals (directoryEntryAt clusterPairGlobals 0) = 33 ∧
      main clusterPairImage smallName 1 = .outOfBounds := by
  decide

end Fat12
